import Mathlib

/-!
# Verification of `weather_fetcher.py`

A shallow embedding of the data-handling core of the weather-fetcher script:
the astronomical field sanitizer (`clean_astronomical_data`), the response
normalizer (`process_weather_data`), the per-city fetch routine
(`fetch_weather_for_city`) and the orchestrating `main` loop.

JSON documents are modelled by the inductive type `Value`; Python dictionaries
become association lists (`Dict`), and the relevant Python primitives
(`x in d`, `d[k]`, `d.get(k, default)`, truthiness, `len`, iteration) are
modelled including their failure behaviour (`TypeError` / `KeyError` /
`AttributeError` become `Except.error`).  Fallible code returns
`Except Unit _`; network I/O is abstracted by a `NetResult` describing the
outcome of the single HTTP request a city fetch performs.
-/

set_option autoImplicit false

namespace Weather

/-- A JSON value, as produced by `response.json()`. -/
inductive Value where
  | vNull
  | vBool (b : Bool)
  | vNum (n : Int)
  | vStr (s : String)
  | vArr (xs : List Value)
  | vObj (fields : List (String × Value))

/-- A Python dictionary with string keys (insertion ordered). -/
abbrev Dict := List (String × Value)

/-- First-occurrence lookup, i.e. Python `d[k]` on a dict when the key exists,
`d.get(k)` otherwise (`none` = key absent). -/
def dictGetOpt (d : Dict) (k : String) : Option Value :=
  match d with
  | [] => none
  | p :: rest => if p.1 = k then some p.2 else dictGetOpt rest k

/-- Python `d.get(k, default)`. -/
def dictGet (d : Dict) (k : String) (default : Value) : Value :=
  (dictGetOpt d k).getD default

/-- Python `d[k] = v`: update the value at the (first occurrence of the) key
if present, otherwise append the new binding at the end. -/
def dictSet (d : Dict) (k : String) (v : Value) : Dict :=
  match d with
  | [] => [(k, v)]
  | p :: rest => if p.1 = k then (k, v) :: rest else p :: dictSet rest k v

/-- Python truthiness of a JSON value (`not value` is its negation). -/
def pyFalsy : Value → Bool
  | .vNull => true
  | .vBool b => !b
  | .vNum n => n == 0
  | .vStr s => s == ""
  | .vArr xs => xs.isEmpty
  | .vObj fs => fs.isEmpty

/-- Python `s.lower()` (ASCII case folding, which covers every string the
program compares). -/
def pyLower (s : String) : String :=
  String.mk (s.data.map Char.toLower)

/-- Python `s.startswith(p)`. -/
def strStartsWith (s p : String) : Bool :=
  p.data.isPrefixOf s.data

/-- Substring containment, Python `pat in s` for strings. -/
def strContains (s pat : String) : Bool :=
  s.data.tails.any (fun t => pat.data.isPrefixOf t)

/-- Python `key in container` for a string `key`.  Dicts test key membership,
lists test element equality (a string equals only an equal string), strings
test substring containment; on other values `in` raises `TypeError`. -/
def pyContains (container : Value) (key : String) : Except Unit Bool :=
  match container with
  | .vObj fs => .ok (fs.any (fun p => p.1 == key))
  | .vArr xs => .ok (xs.any (fun x => match x with | .vStr s => s == key | _ => false))
  | .vStr s => .ok (strContains s key)
  | _ => .error ()

/-- Python `container[key]` for a string `key`: dict lookup (`KeyError` when
absent); on strings, lists and scalars a string subscript raises `TypeError`. -/
def pyGetItem (container : Value) (key : String) : Except Unit Value :=
  match container with
  | .vObj fs =>
    match dictGetOpt fs key with
    | some v => .ok v
    | none => .error ()
  | _ => .error ()

/-- Python `len(v)`: defined on strings, lists and dicts, `TypeError` otherwise. -/
def pyLen (v : Value) : Except Unit Nat :=
  match v with
  | .vStr s => .ok s.length
  | .vArr xs => .ok xs.length
  | .vObj fs => .ok fs.length
  | _ => .error ()

/-- Python `for x in v`: lists yield elements, strings yield one-character
strings, dicts yield their keys; other values raise `TypeError`. -/
def pyIter (v : Value) : Except Unit (List Value) :=
  match v with
  | .vArr xs => .ok xs
  | .vStr s => .ok (s.data.map (fun c => Value.vStr (String.singleton c)))
  | .vObj fs => .ok (fs.map (fun p => Value.vStr p.1))
  | _ => .error ()

/-- `mapM` specialised to `Except Unit`, with definitional equations used
throughout the proofs (models a Python `for` loop that may raise). -/
def mapExcept {α β : Type} (f : α → Except Unit β) : List α → Except Unit (List β)
  | [] => .ok []
  | a :: as => do
    let b ← f a
    let bs ← mapExcept f as
    pure (b :: bs)

/-- `foldlM` specialised to `Except Unit` (a Python accumulating loop that
may raise). -/
def foldlExcept {α β : Type} (f : β → α → Except Unit β) (init : β) :
    List α → Except Unit β
  | [] => .ok init
  | a :: as => do
    let acc ← f init a
    foldlExcept f acc as

/-! ## The Field Sanitizer (`clean_astronomical_data`, lines 45-76) -/

/-- `time_fields = ['moonrise', 'moonset', 'sunrise', 'sunset']` (line 58). -/
def time_fields : List String := ["moonrise", "moonset", "sunrise", "sunset"]

/-- The sentinel list of line 66:
`['no moonrise', 'no moonset', 'no sunrise', 'no sunset', 'null', 'none']`. -/
def noDataStrings : List String :=
  ["no moonrise", "no moonset", "no sunrise", "no sunset", "null", "none"]

/-- `value.lower().startswith('no ') or value.lower() in [...]` (lines 65-66),
for a string value. -/
def isNoDataStr (s : String) : Bool :=
  strStartsWith (pyLower s) "no " || noDataStrings.contains (pyLower s)

/-- The loop body of lines 60-69 applied to one raw field value:
`not value` short-circuits to the absence marker, otherwise `value.lower()`
raises `AttributeError` unless the value is a string, which is then tested
against the sentinel patterns. -/
def cleanValue (v : Value) : Except Unit Value :=
  if pyFalsy v then .ok .vNull
  else
    match v with
    | .vStr s => if isNoDataStr s then .ok .vNull else .ok (.vStr s)
    | _ => .error ()

/-- The copy loop of lines 72-74: every non-time field of the input is copied
into the cleaned record as-is. -/
def copyOthers (fs : Dict) (acc : Dict) : Dict :=
  fs.foldl (fun a p => if time_fields.contains p.1 then a else dictSet a p.1 p.2) acc

/-- `clean_astronomical_data(astro_data)` (lines 45-76): build a fresh record,
set each of the four time fields to the cleaned value of
`astro_data.get(field, '')`, then copy all other fields unchanged. -/
def clean_astronomical_data (astro_data : Dict) : Except Unit Dict := do
  let base ← foldlExcept
    (fun acc field => do
      let v ← cleanValue (dictGet astro_data field (.vStr ""))
      pure (dictSet acc field v))
    [] time_fields
  pure (copyOthers astro_data base)

/-! ## The Response Normalizer (`process_weather_data`, lines 78-96) -/

/-- The body of the per-day loop (lines 92-94): `if 'astro' in day:
day['astro'] = clean_astronomical_data(day['astro'])`.  A dict day with an
`astro` key has the block replaced (non-dict blocks make `.get` raise
`AttributeError`); a dict day without the key is untouched; a string or list
day containing `'astro'` raises `TypeError` at the subscript; `'astro' in day`
itself raises `TypeError` on scalars. -/
def processDay (day : Value) : Except Unit Value :=
  match day with
  | .vObj dfs =>
    match dictGetOpt dfs "astro" with
    | some (.vObj afs) => do
      let cleaned ← clean_astronomical_data afs
      pure (.vObj (dictSet dfs "astro" (.vObj cleaned)))
    | some _ => .error ()
    | none => pure (.vObj dfs)
  | .vStr s => if strContains s "astro" then .error () else pure (.vStr s)
  | .vArr xs =>
    if xs.any (fun x => match x with | .vStr s => s == "astro" | _ => false)
    then .error () else pure (.vArr xs)
  | _ => .error ()

/-- The loop of lines 92-94 over `processed_data['forecast']['forecastday']`.
Only a list is mutated through iteration; iterating a string (characters) or a
dict (keys) yields derived strings whose "mutation" either no-ops or raises,
leaving the value itself unchanged; other values are not iterable. -/
def processForecastDays (fd : Value) : Except Unit Value :=
  match fd with
  | .vArr ds => do
    let ds' ← mapExcept processDay ds
    pure (.vArr ds')
  | .vStr s => do
    let _ ← mapExcept processDay (s.data.map (fun c => Value.vStr (String.singleton c)))
    pure (.vStr s)
  | .vObj ffs => do
    let _ ← mapExcept processDay (ffs.map (fun p => Value.vStr p.1))
    pure (.vObj ffs)
  | _ => .error ()

/-- `process_weather_data(raw_data)` (lines 78-96).  `raw_data.copy()` raises
`AttributeError` on scalars and strings; the guard
`'forecast' in processed_data and 'forecastday' in processed_data['forecast']`
follows Python `in` semantics per container type, and the day loop mutates the
days of the forecast list in place (value-level: the `forecastday` entry is
replaced by the processed list). -/
def process_weather_data (raw_data : Value) : Except Unit Value :=
  match raw_data with
  | .vObj pfs =>
    match dictGetOpt pfs "forecast" with
    | none => .ok (.vObj pfs)
    | some (.vObj ffs) =>
      match dictGetOpt ffs "forecastday" with
      | none => .ok (.vObj pfs)
      | some fd => do
        let fd' ← processForecastDays fd
        pure (.vObj (dictSet pfs "forecast" (.vObj (dictSet ffs "forecastday" fd'))))
    | some (.vStr s) =>
      if strContains s "forecastday" then .error () else .ok (.vObj pfs)
    | some (.vArr xs) =>
      if xs.any (fun x => match x with | .vStr s => s == "forecastday" | _ => false)
      then .error () else .ok (.vObj pfs)
    | some _ => .error ()
  | .vArr xs =>
    if xs.any (fun x => match x with | .vStr s => s == "forecast" | _ => false)
    then .error () else .ok (.vArr xs)
  | _ => .error ()

/-! ## The City Fetcher (`fetch_weather_for_city`, lines 98-200) -/

/-- Configuration (lines 18, 22-35). -/
def API_KEY : String := "7640f2c8ad6141b08fa170506250408"

/-- The nine configured cities (lines 22-32). -/
def CITIES : List String :=
  ["Bengaluru", "Mumbai", "Mysuru", "New Delhi", "Mandya",
   "Madikeri", "Hassan", "Bhagamandala", "Ghaziabad"]

/-- Output directory (line 35). -/
def SAVE_DIR : String := "weather_data"

/-- `city_name.replace(' ', '_').replace('-', '_')` (line 156).  For
single-character patterns `str.replace` is character-wise replacement. -/
def safe_city_name (city_name : String) : String :=
  String.mk ((city_name.data.map (fun c => if c = ' ' then '_' else c)).map
    (fun c => if c = '-' then '_' else c))

/-- `f"{safe_city_name}_latest.json"` (line 157). -/
def fileName (city_name : String) : String :=
  safe_city_name city_name ++ "_latest.json"

/-- The outcome of the single `requests.get` call of line 127 together with
the parse of line 131: a completed HTTP exchange with its status code and
parsed body (`none` = the body was not valid JSON), or one of the
transport-level exceptions `requests` can raise. -/
inductive NetResult where
  | ok (status : Nat) (body : Option Value)
  | connError
  | timeoutErr
  | otherReqError

/-- The per-city outcome classification, one per `except` clause of lines
177-200 plus the non-exception invalid-structure `return False` of line 136. -/
inductive ErrKind where
  | httpError
  | connectionError
  | timeoutError
  | requestError
  | jsonError
  | invalidStructure
  | genericError

/-- What a call to `fetch_weather_for_city` produces: its boolean return
value, the file write it performed (path and contents, if any), and the
error classification it reported (if any). -/
structure FetchResult where
  retval : Bool
  written : Option (String × Value)
  kind : Option ErrKind

/-- The structure validation of line 134:
`'location' not in raw or 'current' not in raw or 'forecast' not in raw`,
short-circuiting, raising `TypeError` when `in` is applied to a scalar. -/
def structureOk (raw : Value) : Except Unit Bool := do
  let a ← pyContains raw "location"
  if !a then pure false
  else do
    let b ← pyContains raw "current"
    if !b then pure false
    else pyContains raw "forecast"

/-- The statistics loop of lines 142-149: `forecast_days = wd['forecast']['forecastday']`,
then for each day count it when `day['astro'].get('moonrise') is None or
day['astro'].get('moonset') is None`.  `day['astro']` raises `KeyError` when
the key is absent and `.get` raises `AttributeError` when the block is not a
dict. -/
def isNoneGet (afs : Dict) (k : String) : Bool :=
  match dictGetOpt afs k with
  | none => true
  | some .vNull => true
  | some _ => false

/-- See `isNoneGet`: the cleaned-days statistics loop of lines 142-149. -/
def statsLoop (wd : Value) : Except Unit Nat := do
  let f ← pyGetItem wd "forecast"
  let fd ← pyGetItem f "forecastday"
  let days ← pyIter fd
  foldlExcept
    (fun acc day => do
      let a ← pyGetItem day "astro"
      match a with
      | .vObj afs =>
        if isNoneGet afs "moonrise" || isNoneGet afs "moonset"
        then pure (acc + 1) else pure acc
      | _ => .error ())
    0 days

/-- The success-report reads of lines 165-167, executed after the file write:
`wd['location']['name']`, `wd['current']['temp_c']`,
`len(wd['forecast']['forecastday'])`. -/
def summaryReads (wd : Value) : Except Unit Unit := do
  let loc ← pyGetItem wd "location"
  let _ ← pyGetItem loc "name"
  let cur ← pyGetItem wd "current"
  let _ ← pyGetItem cur "temp_c"
  let f ← pyGetItem wd "forecast"
  let fd ← pyGetItem f "forecastday"
  let _ ← pyLen fd
  pure ()

/-- Lines 139-149: normalize the document, then run the statistics loop
(whose raises land in the generic handler); the normalized document is what
gets written. -/
def normalizeAndStats (raw : Value) : Except Unit Value := do
  let wd ← process_weather_data raw
  let _ ← statsLoop wd
  pure wd

/-- `fetch_weather_for_city(city_name, city_number)` (lines 98-200), as a
function of the network outcome.  `raise_for_status` raises `HTTPError` for
status codes in [400, 600); a body that fails to parse is classified by its
own `except` clause; the structure check of line 134 returns `False` without
raising; everything after it that raises (`process_weather_data`, the
statistics loop, the post-write summary reads) lands in the generic
`except Exception` clause.  The file write of lines 161-162 happens before
the summary reads, so a failure there still leaves the file written. -/
def fetch_weather_for_city (city_name : String) (net : NetResult) : FetchResult :=
  match net with
  | .connError => ⟨false, none, some .connectionError⟩
  | .timeoutErr => ⟨false, none, some .timeoutError⟩
  | .otherReqError => ⟨false, none, some .requestError⟩
  | .ok status body =>
    if 400 ≤ status ∧ status < 600 then ⟨false, none, some .httpError⟩
    else
      match body with
      | none => ⟨false, none, some .jsonError⟩
      | some raw =>
        match structureOk raw with
        | .error _ => ⟨false, none, some .genericError⟩
        | .ok false => ⟨false, none, some .invalidStructure⟩
        | .ok true =>
          match normalizeAndStats raw with
          | .error _ => ⟨false, none, some .genericError⟩
          | .ok wd =>
            let filepath := SAVE_DIR ++ "/" ++ fileName city_name
            match summaryReads wd with
            | .error _ => ⟨false, some (filepath, wd), some .genericError⟩
            | .ok _ => ⟨true, some (filepath, wd), none⟩

/-! ## The Run Orchestrator (`main`, lines 224-300) -/

/-- The success/failure aggregation state of lines 243-244. -/
structure RunSummary where
  successes : List String
  failures : List String

/-- The loop of lines 248-252: `for index, city in enumerate(CITIES, 1)`,
appending the city to the success or failure list according to
`fetch_weather_for_city(city, index)`.  The network environment `env` gives
the outcome of the HTTP request made at each (1-based) position; the pacing
`time.sleep(1)` has no data effect and is not modelled. -/
def mainRun (env : Nat → NetResult) : RunSummary :=
  (CITIES.enumFrom 1).foldl
    (fun acc p =>
      if (fetch_weather_for_city p.2 (env p.1)).retval
      then ⟨acc.successes ++ [p.2], acc.failures⟩
      else ⟨acc.successes, acc.failures ++ [p.2]⟩)
    ⟨[], []⟩

/-- `return len(failed_cities) == 0` (line 289). -/
def mainReturn (env : Nat → NetResult) : Bool :=
  (mainRun env).failures.length == 0

/-- `sys.exit(0 if success else 1)` (line 294), for a run that completes. -/
def exitStatus (env : Nat → NetResult) : Nat :=
  if mainReturn env then 0 else 1

/-! ## A heap model of the Sanitizer, for its purity (no mutation of the
input record).  Dictionaries live in a heap of dict objects addressed by
allocation index; the Sanitizer allocates `cleaned_astro = {}` fresh and
performs every write on that fresh reference, reading but never writing the
input reference. -/

/-- A heap of Python dict objects; references are indices. -/
abbrev Heap := List Dict

/-- Dereference (a dangling reference reads as the empty dict). -/
def heapGet (h : Heap) (r : Nat) : Dict := h.getD r []

/-- Write a dict object in place. -/
def heapSet (h : Heap) (r : Nat) (d : Dict) : Heap := h.set r d

/-- `clean_astronomical_data` (lines 45-76) at the object level:
`cleaned_astro = {}` allocates a fresh dict (line 55); each
`cleaned_astro[field] = ...` of lines 67/69 and each copy assignment of
line 74 is a write on that fresh reference; `astro_data` is only read. -/
def cleanAstroHeap (h : Heap) (astroRef : Nat) : Except Unit (Heap × Nat) := do
  let cr := h.length
  let h1 := h ++ [[]]
  let h2 ← foldlExcept
    (fun hh field => do
      let v ← cleanValue (dictGet (heapGet hh astroRef) field (.vStr ""))
      pure (heapSet hh cr (dictSet (heapGet hh cr) field v)))
    h1 time_fields
  let h3 := (heapGet h2 astroRef).foldl
    (fun hh p =>
      if time_fields.contains p.1 then hh
      else heapSet hh cr (dictSet (heapGet hh cr) p.1 p.2))
    h2
  pure (h3, cr)

/-! ## Spec-side definitions (for refinement-style claims) -/

/-- Modelled from the spec (section 8 / claim C1): a raw time-field value
(`none` = key absent) that the spec says must map to the absence marker:
missing, empty, starting with `"no "` in any case, or equal to `"null"` or
`"none"` in any case. -/
def specNoData (ov : Option Value) : Bool :=
  match ov with
  | none => true
  | some (.vStr s) =>
    s == "" || strStartsWith (pyLower s) "no " || pyLower s == "null" || pyLower s == "none"
  | some _ => false

/-! ## Example documents (used by the concrete-evaluation theorems) -/

/-- The top-level fields of `exDoc`. -/
def exDocFields : Dict := [("location", .vObj []),
  ("forecast", .vObj [("forecastday", .vArr [.vObj [("astro",
     .vObj [("moonrise", .vStr "No moonrise"), ("moonset", .vStr "06:10 PM"),
            ("moon_phase", .vStr "Full")])]])])]

/-- A forecast document with one day whose astro block holds a sentinel. -/
def exDoc : Value := .vObj exDocFields

/-- `process_weather_data exDoc` evaluates to this normalized document. -/
def exDocNorm : Value := .vObj [("location", .vObj []),
  ("forecast", .vObj [("forecastday", .vArr [.vObj [("astro",
     .vObj [("moonrise", .vNull), ("moonset", .vStr "06:10 PM"), ("sunrise", .vNull),
            ("sunset", .vNull), ("moon_phase", .vStr "Full")])]])])]

/-- A fully well-formed response document on which a fetch succeeds. -/
def goodDoc : Value := .vObj [
  ("location", .vObj [("name", .vStr "Bengaluru")]),
  ("current", .vObj [("temp_c", .vNum 25)]),
  ("forecast", .vObj [("forecastday", .vArr [.vObj [("date", .vStr "2026-10-12"),
     ("astro", .vObj [("moonrise", .vStr "06:00 AM"), ("moonset", .vStr "07:00 PM"),
        ("sunrise", .vStr "06:10 AM"), ("sunset", .vStr "06:20 PM")])]])])]

/-- The top-level fields of `noAstroDoc`. -/
def noAstroFields : Dict := [
  ("location", .vObj [("name", .vStr "X")]),
  ("current", .vObj []),
  ("forecast", .vObj [("forecastday", .vArr [.vObj [("date", .vStr "2026-10-12")]])])]

/-- A document that passes the top-level check but has a day without an
astro block. -/
def noAstroDoc : Value := .vObj noAstroFields

/-- A network environment in which exactly the fifth request gets a 404. -/
def envOneFail : Nat → NetResult :=
  fun j => if j = 5 then .ok 404 none else .ok 200 (some goodDoc)

/-- An astro record whose four time fields are strings (one sentinel, one
upper-case `"NULL"`, two valid times). -/
def exAstro : Dict :=
  [("moonrise", .vStr "No moonrise"), ("moonset", .vStr "06:10 PM"),
   ("sunrise", .vStr "NULL"), ("sunset", .vStr "06:20 PM"), ("moon_phase", .vStr "Full")]

/-- A one-dict heap whose single record is a valid astro block. -/
def exHeap : Heap := [[("moonrise", .vStr "06:00 AM")]]

/-! ## Basic lemmas: `Except` bind, dictionaries, the copy loop -/

@[simp] theorem ok_bind {α β : Type} (a : α) (f : α → Except Unit β) :
    (Except.ok a >>= f) = f a := rfl

@[simp] theorem error_bind {α β : Type} (f : α → Except Unit β) :
    ((Except.error () : Except Unit α) >>= f) = .error () := rfl

@[simp] theorem pureBind {α β : Type} (a : α) (f : α → Except Unit β) :
    ((pure a : Except Unit α) >>= f) = f a := rfl

@[simp] theorem dictGetOpt_nil (k : String) : dictGetOpt [] k = none := rfl

@[simp] theorem dictGetOpt_cons (p : String × Value) (d : Dict) (k : String) :
    dictGetOpt (p :: d) k = if p.1 = k then some p.2 else dictGetOpt d k := by
  rw [dictGetOpt]

@[simp] theorem dictGetOpt_dictSet_self (d : Dict) (k : String) (v : Value) :
    dictGetOpt (dictSet d k v) k = some v := by
  induction d with
  | nil => simp [dictSet]
  | cons p rest ih =>
    rw [dictSet]
    by_cases h : p.1 = k <;> simp [h, ih]

theorem dictGetOpt_dictSet_ne (d : Dict) (k k' : String) (v : Value) (h : k' ≠ k) :
    dictGetOpt (dictSet d k v) k' = dictGetOpt d k' := by
  induction d with
  | nil => simp [dictSet, Ne.symm h]
  | cons p rest ih =>
    rw [dictSet]
    by_cases hp : p.1 = k
    · simp [hp, Ne.symm h]
    · simp [hp, ih]

theorem dictSet_dictSet_same (d : Dict) (k : String) (v w : Value) :
    dictSet (dictSet d k v) k w = dictSet d k w := by
  induction d with
  | nil => simp [dictSet]
  | cons p rest ih =>
    rw [dictSet]
    by_cases hp : p.1 = k
    · simp [dictSet, hp]
    · simp [dictSet, hp, ih]

theorem dictGetOpt_append (b r : Dict) (k : String) :
    dictGetOpt (b ++ r) k =
      match dictGetOpt b k with
      | some v => some v
      | none => dictGetOpt r k := by
  induction b with
  | nil => simp
  | cons p rest ih =>
    by_cases hp : p.1 = k <;> simp [hp, ih]

theorem dictSet_append_left (b r : Dict) (k : String) (v : Value)
    (h : ∀ p ∈ b, p.1 ≠ k) :
    dictSet (b ++ r) k v = b ++ dictSet r k v := by
  induction b with
  | nil => simp
  | cons p rest ih =>
    have hp : p.1 ≠ k := h p (by simp)
    rw [List.cons_append, dictSet, if_neg hp, ih (fun q hq => h q (by simp [hq])),
      List.cons_append]

theorem dictSet_eq_append (d : Dict) (k : String) (v : Value)
    (h : ∀ p ∈ d, p.1 ≠ k) :
    dictSet d k v = d ++ [(k, v)] := by
  induction d with
  | nil => simp [dictSet]
  | cons p rest ih =>
    have hp : p.1 ≠ k := h p (by simp)
    rw [dictSet, if_neg hp, ih (fun q hq => h q (by simp [hq])), List.cons_append]

theorem mem_dictSet (d : Dict) (k : String) (v : Value) (p : String × Value)
    (h : p ∈ dictSet d k v) : p ∈ d ∨ p = (k, v) := by
  induction d with
  | nil => simp [dictSet] at h; simp [h]
  | cons q rest ih =>
    rw [dictSet] at h
    by_cases hq : q.1 = k
    · simp only [hq, if_true, List.mem_cons] at h
      rcases h with h | h
      · right; exact h
      · left; simp [h]
    · simp only [hq, if_false, List.mem_cons] at h
      rcases h with h | h
      · left; simp [h]
      · rcases ih h with h' | h'
        · left; simp [h']
        · right; exact h'

theorem keys_dictSet (d : Dict) (k : String) (v : Value) :
    (dictSet d k v).map Prod.fst = d.map Prod.fst ∨
    (dictSet d k v).map Prod.fst = d.map Prod.fst ++ [k] := by
  induction d with
  | nil => right; simp [dictSet]
  | cons p rest ih =>
    rw [dictSet]
    by_cases hp : p.1 = k
    · left; simp [hp]
    · rcases ih with h | h
      · left; simp [hp, h]
      · right; simp [hp, h]

theorem nodup_keys_dictSet (d : Dict) (k : String) (v : Value)
    (h : (d.map Prod.fst).Nodup) : ((dictSet d k v).map Prod.fst).Nodup := by
  induction d with
  | nil => simp [dictSet]
  | cons p rest ih =>
    rw [dictSet]
    by_cases hp : p.1 = k
    · simpa [hp] using h
    · rw [if_neg hp]
      simp only [List.map_cons, List.nodup_cons] at h ⊢
      refine ⟨?_, ih h.2⟩
      intro hmem
      rcases keys_dictSet rest k v with he | he
      · exact h.1 (he ▸ hmem)
      · rw [he, List.mem_append] at hmem
        rcases hmem with hmem | hmem
        · exact h.1 hmem
        · simp at hmem; exact hp (hmem ▸ rfl)

/-! ## Lemmas about the copy loop `copyOthers` -/

theorem copyOthers_nil (acc : Dict) : copyOthers [] acc = acc := rfl

theorem copyOthers_cons (p : String × Value) (fs : Dict) (acc : Dict) :
    copyOthers (p :: fs) acc =
      copyOthers fs (if time_fields.contains p.1 then acc else dictSet acc p.1 p.2) := by
  rw [copyOthers, List.foldl_cons, copyOthers]

theorem copyOthers_getOpt_time (fs : Dict) (acc : Dict) (k : String)
    (hk : time_fields.contains k = true) :
    dictGetOpt (copyOthers fs acc) k = dictGetOpt acc k := by
  induction fs generalizing acc with
  | nil => rw [copyOthers_nil]
  | cons p rest ih =>
    rw [copyOthers_cons]
    by_cases hp : time_fields.contains p.1
    · rw [if_pos hp, ih]
    · rw [if_neg hp, ih, dictGetOpt_dictSet_ne]
      intro he
      exact hp (he ▸ hk)

theorem copyOthers_append_acc (fs : Dict) (b r : Dict)
    (hb : ∀ p ∈ b, time_fields.contains p.1 = true) :
    copyOthers fs (b ++ r) = b ++ copyOthers fs r := by
  induction fs generalizing r with
  | nil => rw [copyOthers_nil, copyOthers_nil]
  | cons p rest ih =>
    rw [copyOthers_cons, copyOthers_cons]
    by_cases hp : time_fields.contains p.1
    · rw [if_pos hp, if_pos hp, ih]
    · rw [if_neg hp, if_neg hp, dictSet_append_left _ _ _ _ ?adm, ih]
      case adm =>
        intro q hq he
        exact hp (he ▸ hb q hq)

theorem copyOthers_not_time (fs : Dict) (acc : Dict)
    (hacc : ∀ p ∈ acc, time_fields.contains p.1 = false) :
    ∀ p ∈ copyOthers fs acc, time_fields.contains p.1 = false := by
  induction fs generalizing acc with
  | nil => rw [copyOthers_nil]; exact hacc
  | cons q rest ih =>
    rw [copyOthers_cons]
    by_cases hq : time_fields.contains q.1
    · rw [if_pos hq]; exact ih acc hacc
    · rw [if_neg hq]
      refine ih _ ?_
      intro p hp
      rcases mem_dictSet _ _ _ _ hp with h | h
      · exact hacc p h
      · rw [h]; exact Bool.not_eq_true _ ▸ hq

theorem copyOthers_nodup (fs : Dict) (acc : Dict)
    (hacc : (acc.map Prod.fst).Nodup) :
    ((copyOthers fs acc).map Prod.fst).Nodup := by
  induction fs generalizing acc with
  | nil => rw [copyOthers_nil]; exact hacc
  | cons q rest ih =>
    rw [copyOthers_cons]
    by_cases hq : time_fields.contains q.1
    · rw [if_pos hq]; exact ih acc hacc
    · rw [if_neg hq]; exact ih _ (nodup_keys_dictSet _ _ _ hacc)

theorem copyOthers_all_time (fs : Dict) (acc : Dict)
    (h : ∀ p ∈ fs, time_fields.contains p.1 = true) :
    copyOthers fs acc = acc := by
  induction fs with
  | nil => rw [copyOthers_nil]
  | cons p rest ih =>
    rw [copyOthers_cons, if_pos (h p (by simp))]
    exact ih (fun q hq => h q (by simp [hq]))

theorem copyOthers_disjoint (q : Dict) (acc : Dict)
    (hq : ∀ p ∈ q, time_fields.contains p.1 = false)
    (hnd : (q.map Prod.fst).Nodup)
    (hdisj : ∀ p ∈ q, ∀ b ∈ acc, p.1 ≠ b.1) :
    copyOthers q acc = acc ++ q := by
  induction q generalizing acc with
  | nil => rw [copyOthers_nil, List.append_nil]
  | cons p rest ih =>
    rw [copyOthers_cons, if_neg (by rw [hq p (by simp)]; simp)]
    rw [dictSet_eq_append acc p.1 p.2 (fun b hb => (hdisj p (by simp) b hb).symm)]
    rw [ih (acc ++ [(p.1, p.2)]) (fun x hx => hq x (by simp [hx]))
      (by simpa using (List.nodup_cons.mp (by simpa using hnd)).2) ?hd]
    · simp
    case hd =>
      intro x hx b hb
      rcases List.mem_append.mp hb with hb | hb
      · exact hdisj x (by simp [hx]) b hb
      · have hpb : b = (p.1, p.2) := by simpa using hb
        rw [hpb]
        have := (List.nodup_cons.mp (by simpa using hnd : (p.1 :: rest.map Prod.fst).Nodup)).1
        intro he
        exact this (he ▸ List.mem_map_of_mem Prod.fst hx)

/-! ## Characterization of the Field Sanitizer -/

/-- The sentinel test of lines 65-66 simplifies for strings: the four
`"no ..."` literals of the list are subsumed by the `startswith('no ')`
test, leaving exactly `"null"` and `"none"`. -/
theorem isNoDataStr_eq (s : String) :
    isNoDataStr s =
      (strStartsWith (pyLower s) "no " || pyLower s == "null" || pyLower s == "none") := by
  rw [isNoDataStr]
  by_cases h : strStartsWith (pyLower s) "no " = true
  · rw [h]; rfl
  · have h' : strStartsWith (pyLower s) "no " = false := Bool.eq_false_iff.mpr h
    rw [h']
    simp only [Bool.false_or]
    have key : ∀ t : String, strStartsWith t "no " = true → (pyLower s == t) = false := by
      intro t ht
      by_contra hne
      rw [Bool.not_eq_false, beq_iff_eq] at hne
      rw [hne] at h'
      exact absurd (ht.symm.trans h') (by decide)
    rw [noDataStrings, List.contains_cons, List.contains_cons, List.contains_cons,
      List.contains_cons, List.contains_cons, List.contains_cons]
    rw [key "no moonrise" (by decide), key "no moonset" (by decide),
      key "no sunrise" (by decide), key "no sunset" (by decide)]
    simp

@[simp] theorem foldlExcept_nil {α β : Type} (f : β → α → Except Unit β) (init : β) :
    foldlExcept f init [] = .ok init := rfl

theorem foldlExcept_cons {α β : Type} (f : β → α → Except Unit β) (init : β)
    (a : α) (as : List α) :
    foldlExcept f init (a :: as) = (f init a >>= fun acc => foldlExcept f acc as) := rfl

@[simp] theorem mapExcept_nil {α β : Type} (f : α → Except Unit β) :
    mapExcept f [] = .ok [] := rfl

theorem mapExcept_cons {α β : Type} (f : α → Except Unit β) (a : α) (as : List α) :
    mapExcept f (a :: as) =
      (f a >>= fun b => mapExcept f as >>= fun bs => .ok (b :: bs)) := rfl

/-- A cleaned field value is a fixed point of the cleaning step. -/
theorem cleanValue_idem (v w : Value) (h : cleanValue v = .ok w) :
    cleanValue w = .ok w := by
  have hnull : cleanValue Value.vNull = .ok Value.vNull := rfl
  cases v with
  | vNull =>
    rw [show cleanValue Value.vNull = .ok Value.vNull from rfl] at h
    cases h; exact hnull
  | vBool b =>
    cases b with
    | true =>
      rw [show cleanValue (.vBool true) = .error () from rfl] at h
      exact Except.noConfusion h
    | false =>
      rw [show cleanValue (.vBool false) = .ok Value.vNull from rfl] at h
      cases h; exact hnull
  | vNum n =>
    by_cases hn : n = 0
    · subst hn
      rw [show cleanValue (.vNum 0) = .ok Value.vNull from rfl] at h
      cases h; exact hnull
    · have hcv : cleanValue (.vNum n) = .error () := by
        rw [cleanValue, if_neg (by simp [pyFalsy, hn])]
        exact fun s hs => Value.noConfusion hs
      rw [hcv] at h; exact Except.noConfusion h
  | vStr s =>
    by_cases hs : s = ""
    · subst hs
      rw [show cleanValue (.vStr "") = .ok Value.vNull from rfl] at h
      cases h; exact hnull
    · have hf : ¬ pyFalsy (Value.vStr s) = true := by simp [pyFalsy, hs]
      rw [cleanValue, if_neg hf] at h
      have h' : (if isNoDataStr s = true then Except.ok Value.vNull
          else Except.ok (Value.vStr s)) = Except.ok w := h
      by_cases hn : isNoDataStr s = true
      · rw [if_pos hn] at h'; cases h'; exact hnull
      · rw [if_neg hn] at h'; cases h'
        rw [cleanValue, if_neg hf]
        show (if isNoDataStr s = true then Except.ok Value.vNull
          else Except.ok (Value.vStr s)) = Except.ok (Value.vStr s)
        rw [if_neg hn]
  | vArr xs =>
    cases xs with
    | nil =>
      rw [show cleanValue (.vArr []) = .ok Value.vNull from rfl] at h
      cases h; exact hnull
    | cons x rest =>
      have hcv : cleanValue (.vArr (x :: rest)) = .error () := by
        rw [cleanValue, if_neg (by simp [pyFalsy])]
        exact fun s hs => Value.noConfusion hs
      rw [hcv] at h; exact Except.noConfusion h
  | vObj fs =>
    cases fs with
    | nil =>
      rw [show cleanValue (.vObj []) = .ok Value.vNull from rfl] at h
      cases h; exact hnull
    | cons p rest =>
      have hcv : cleanValue (.vObj (p :: rest)) = .error () := by
        rw [cleanValue, if_neg (by simp [pyFalsy])]
        exact fun s hs => Value.noConfusion hs
      rw [hcv] at h; exact Except.noConfusion h

/-- The cleaning step realizes the spec's sentinel predicate on fields whose
raw value is a string or missing. -/
theorem cleanValue_spec (ov : Option Value)
    (h : ∀ v, ov = some v → ∃ s, v = Value.vStr s) :
    cleanValue (ov.getD (.vStr "")) =
      .ok (if specNoData ov then .vNull else ov.getD (.vStr "")) := by
  cases ov with
  | none => rfl
  | some v =>
    obtain ⟨s, rfl⟩ := h v rfl
    simp only [Option.getD_some]
    by_cases hs : s = ""
    · subst hs; rfl
    · have hf : pyFalsy (.vStr s) = false := by simp [pyFalsy, hs]
      have hse : (s == "") = false := by simp [hs]
      have hspec : specNoData (some (.vStr s)) = isNoDataStr s := by
        simp only [specNoData, hse, Bool.false_or, isNoDataStr_eq]
      rw [cleanValue, if_neg (by rw [hf]; simp), hspec]
      by_cases hn : isNoDataStr s = true
      · rw [if_pos hn, if_pos hn]
      · rw [if_neg hn, if_neg hn]

/-- Success characterization of the Sanitizer: all four time fields clean
successfully and the output is the cleaned time block followed by the copied
non-time fields. -/
theorem clean_char (fs out : Dict) :
    clean_astronomical_data fs = .ok out ↔
      ∃ w1 w2 w3 w4,
        cleanValue (dictGet fs "moonrise" (.vStr "")) = .ok w1 ∧
        cleanValue (dictGet fs "moonset" (.vStr "")) = .ok w2 ∧
        cleanValue (dictGet fs "sunrise" (.vStr "")) = .ok w3 ∧
        cleanValue (dictGet fs "sunset" (.vStr "")) = .ok w4 ∧
        out = copyOthers fs [("moonrise", w1), ("moonset", w2), ("sunrise", w3), ("sunset", w4)] := by
  rw [clean_astronomical_data, time_fields]
  cases h1 : cleanValue (dictGet fs "moonrise" (.vStr "")) with
  | error e => cases e; simp [foldlExcept_cons, h1]
  | ok w1 =>
    cases h2 : cleanValue (dictGet fs "moonset" (.vStr "")) with
    | error e => cases e; simp [foldlExcept_cons, h1, h2, dictSet]
    | ok w2 =>
      cases h3 : cleanValue (dictGet fs "sunrise" (.vStr "")) with
      | error e => cases e; simp [foldlExcept_cons, h1, h2, h3, dictSet]
      | ok w3 =>
        cases h4 : cleanValue (dictGet fs "sunset" (.vStr "")) with
        | error e => cases e; simp [foldlExcept_cons, h1, h2, h3, h4, dictSet]
        | ok w4 =>
          simp only [foldlExcept_cons, foldlExcept_nil, h1, h2, h3, h4, ok_bind]
          simp [dictSet, eq_comm]

/-- Failure characterization of the Sanitizer: it raises exactly when some
time field's raw value fails the cleaning step (a non-string truthy value). -/
theorem clean_error_iff (fs : Dict) :
    clean_astronomical_data fs = .error () ↔
      ∃ f ∈ time_fields, cleanValue (dictGet fs f (.vStr "")) = .error () := by
  rw [clean_astronomical_data, time_fields]
  cases h1 : cleanValue (dictGet fs "moonrise" (.vStr "")) with
  | error e => cases e; simp [foldlExcept_cons, h1, time_fields]
  | ok w1 =>
    cases h2 : cleanValue (dictGet fs "moonset" (.vStr "")) with
    | error e => cases e; simp [foldlExcept_cons, h1, h2, time_fields]
    | ok w2 =>
      cases h3 : cleanValue (dictGet fs "sunrise" (.vStr "")) with
      | error e => cases e; simp [foldlExcept_cons, h1, h2, h3, time_fields]
      | ok w3 =>
        cases h4 : cleanValue (dictGet fs "sunset" (.vStr "")) with
        | error e => cases e; simp [foldlExcept_cons, h1, h2, h3, h4, time_fields]
        | ok w4 => simp [foldlExcept_cons, h1, h2, h3, h4, time_fields]

/-- The Sanitizer is idempotent on its success outputs. -/
theorem clean_idem (fs out : Dict) (h : clean_astronomical_data fs = .ok out) :
    clean_astronomical_data out = .ok out := by
  rw [clean_char] at h
  obtain ⟨w1, w2, w3, w4, h1, h2, h3, h4, hout⟩ := h
  set base : Dict := [("moonrise", w1), ("moonset", w2), ("sunrise", w3), ("sunset", w4)]
    with hbase
  have hbtime : ∀ p ∈ base, time_fields.contains p.1 = true := by
    intro p hp
    simp only [hbase, List.mem_cons, List.not_mem_nil, or_false] at hp
    rcases hp with rfl | rfl | rfl | rfl <;> rfl
  have hsplit : out = base ++ copyOthers fs [] := by
    calc out = copyOthers fs base := hout
    _ = copyOthers fs (base ++ []) := by rw [List.append_nil]
    _ = base ++ copyOthers fs [] := copyOthers_append_acc fs base [] hbtime
  set q := copyOthers fs [] with hqdef
  have hq_nontime : ∀ p ∈ q, time_fields.contains p.1 = false :=
    copyOthers_not_time fs [] (by simp)
  have hq_nodup : (q.map Prod.fst).Nodup := copyOthers_nodup fs [] (by simp)
  have hlook : ∀ (k : String) (w : Value), dictGetOpt base k = some w →
      dictGet out k (.vStr "") = w := by
    intro k w hk
    rw [dictGet, hsplit, dictGetOpt_append, hk]
    rfl
  rw [clean_char]
  refine ⟨w1, w2, w3, w4, ?_, ?_, ?_, ?_, ?_⟩
  · rw [hlook "moonrise" w1 (by rw [hbase]; rfl)]
    exact cleanValue_idem _ _ h1
  · rw [hlook "moonset" w2 (by rw [hbase]; rfl)]
    exact cleanValue_idem _ _ h2
  · rw [hlook "sunrise" w3 (by rw [hbase]; rfl)]
    exact cleanValue_idem _ _ h3
  · rw [hlook "sunset" w4 (by rw [hbase]; rfl)]
    exact cleanValue_idem _ _ h4
  · have hdisj : ∀ p ∈ q, ∀ b ∈ base, p.1 ≠ b.1 := by
      intro p hp b hb he
      have hx := hq_nontime p hp
      rw [he] at hx
      rw [hbtime b hb] at hx
      exact Bool.noConfusion hx
    have hstep : copyOthers (base ++ q) base = copyOthers q (copyOthers base base) := by
      simp only [copyOthers, List.foldl_append]
    rw [hsplit, hstep, copyOthers_all_time base base hbtime,
      copyOthers_disjoint q base hq_nontime hq_nodup hdisj]

/-! ## Lemmas about the per-day loop -/

theorem mapExcept_id {α : Type} (f : α → Except Unit α) (l : List α)
    (h : ∀ a ∈ l, f a = .ok a) : mapExcept f l = .ok l := by
  induction l with
  | nil => rfl
  | cons a as ih =>
    rw [mapExcept_cons, h a (by simp), ok_bind, ih (fun x hx => h x (by simp [hx])), ok_bind]

theorem mapExcept_forall {α β : Type} (f : α → Except Unit β) (l : List α) (l' : List β)
    (h : mapExcept f l = .ok l') :
    List.Forall₂ (fun a b => f a = .ok b) l l' := by
  induction l generalizing l' with
  | nil =>
    rw [mapExcept_nil] at h
    cases h
    exact List.Forall₂.nil
  | cons a as ih =>
    rw [mapExcept_cons] at h
    cases hfa : f a with
    | error e =>
      cases e; rw [hfa, error_bind] at h; exact Except.noConfusion h
    | ok b =>
      rw [hfa, ok_bind] at h
      cases hrest : mapExcept f as with
      | error e =>
        cases e; rw [hrest, error_bind] at h; exact Except.noConfusion h
      | ok bs =>
        rw [hrest, ok_bind] at h
        cases h
        exact List.Forall₂.cons hfa (ih bs hrest)

theorem forall2_mem_right {α β : Type} {R : α → β → Prop} {l : List α} {l' : List β}
    (h : List.Forall₂ R l l') (b : β) (hb : b ∈ l') : ∃ a ∈ l, R a b := by
  induction h with
  | nil => cases hb
  | cons hR htail ih =>
    rcases List.mem_cons.mp hb with rfl | hb'
    · exact ⟨_, by simp, hR⟩
    · obtain ⟨a, ha, hab⟩ := ih hb'
      exact ⟨a, by simp [ha], hab⟩

theorem forall2_mem_left {α β : Type} {R : α → β → Prop} {l : List α} {l' : List β}
    (h : List.Forall₂ R l l') (a : α) (ha : a ∈ l) : ∃ b ∈ l', R a b := by
  induction h with
  | nil => cases ha
  | cons hR htail ih =>
    rcases List.mem_cons.mp ha with rfl | ha'
    · exact ⟨_, by simp, hR⟩
    · obtain ⟨b, hb, hab⟩ := ih ha'
      exact ⟨b, by simp [hb], hab⟩

/-- Unfolding of `processDay` on a dict day carrying an astro object. -/
theorem processDay_obj (dfs : Dict) (afs : Dict)
    (h : dictGetOpt dfs "astro" = some (.vObj afs)) :
    processDay (.vObj dfs) =
      (clean_astronomical_data afs >>= fun c => .ok (.vObj (dictSet dfs "astro" (.vObj c)))) := by
  rw [processDay, h]
  rfl

/-- Unfolding of `processDay` on a dict day without an astro key. -/
theorem processDay_obj_none (dfs : Dict) (h : dictGetOpt dfs "astro" = none) :
    processDay (.vObj dfs) = .ok (.vObj dfs) := by
  rw [processDay, h]
  rfl

theorem processDay_idem (day day' : Value) (h : processDay day = .ok day') :
    processDay day' = .ok day' := by
  cases day with
  | vObj dfs =>
    cases ha : dictGetOpt dfs "astro" with
    | none =>
      rw [processDay_obj_none dfs ha] at h
      cases h
      exact processDay_obj_none dfs ha
    | some a =>
      cases a with
      | vObj afs =>
        rw [processDay_obj dfs afs ha] at h
        cases hc : clean_astronomical_data afs with
        | error e => cases e; rw [hc, error_bind] at h; exact Except.noConfusion h
        | ok cleaned =>
          rw [hc, ok_bind] at h
          cases h
          rw [processDay_obj (dictSet dfs "astro" (.vObj cleaned)) cleaned
            (dictGetOpt_dictSet_self dfs "astro" (.vObj cleaned)),
            clean_idem afs cleaned hc, ok_bind, dictSet_dictSet_same]
      | vNull =>
        rw [processDay, ha] at h
        exact Except.noConfusion (show (Except.error () : Except Unit Value) = .ok day' from h)
      | vBool b =>
        rw [processDay, ha] at h
        exact Except.noConfusion (show (Except.error () : Except Unit Value) = .ok day' from h)
      | vNum n =>
        rw [processDay, ha] at h
        exact Except.noConfusion (show (Except.error () : Except Unit Value) = .ok day' from h)
      | vStr s =>
        rw [processDay, ha] at h
        exact Except.noConfusion (show (Except.error () : Except Unit Value) = .ok day' from h)
      | vArr xs =>
        rw [processDay, ha] at h
        exact Except.noConfusion (show (Except.error () : Except Unit Value) = .ok day' from h)
  | vStr s =>
    rw [processDay] at h
    by_cases hc : strContains s "astro" = true
    · rw [if_pos hc] at h
      exact Except.noConfusion h
    · rw [if_neg hc] at h
      cases (show Except.ok (Value.vStr s) = .ok day' from h)
      rw [processDay, if_neg hc]
      rfl
  | vArr xs =>
    rw [processDay] at h
    by_cases hc : (xs.any (fun x => match x with | .vStr s => s == "astro" | _ => false)) = true
    · rw [if_pos hc] at h
      exact Except.noConfusion h
    · rw [if_neg hc] at h
      cases (show Except.ok (Value.vArr xs) = .ok day' from h)
      rw [processDay, if_neg hc]
      rfl
  | vNull => exact Except.noConfusion (show (Except.error () : Except Unit Value) = .ok day' from h)
  | vBool b => exact Except.noConfusion (show (Except.error () : Except Unit Value) = .ok day' from h)
  | vNum n => exact Except.noConfusion (show (Except.error () : Except Unit Value) = .ok day' from h)

theorem processForecastDays_idem (fd fd' : Value)
    (h : processForecastDays fd = .ok fd') : processForecastDays fd' = .ok fd' := by
  cases fd with
  | vArr ds =>
    have h' : (mapExcept processDay ds >>= fun x => Except.ok (Value.vArr x)) = .ok fd' := h
    cases hm : mapExcept processDay ds with
    | error e => cases e; rw [hm, error_bind] at h'; exact Except.noConfusion h'
    | ok ds' =>
      rw [hm, ok_bind] at h'
      cases h'
      have hall : ∀ b ∈ ds', processDay b = .ok b := by
        intro b hb
        obtain ⟨a, _, hab⟩ := forall2_mem_right (mapExcept_forall _ _ _ hm) b hb
        exact processDay_idem a b hab
      show (mapExcept processDay ds' >>= fun x => Except.ok (Value.vArr x)) = .ok (.vArr ds')
      rw [mapExcept_id processDay ds' hall, ok_bind]
  | vStr s =>
    have h' : (mapExcept processDay (s.data.map (fun c => Value.vStr (String.singleton c))) >>=
        fun _ => Except.ok (Value.vStr s)) = .ok fd' := h
    cases hm : mapExcept processDay (s.data.map (fun c => Value.vStr (String.singleton c))) with
    | error e => cases e; rw [hm, error_bind] at h'; exact Except.noConfusion h'
    | ok l =>
      rw [hm, ok_bind] at h'
      cases h'
      show (mapExcept processDay (s.data.map (fun c => Value.vStr (String.singleton c))) >>=
        fun _ => Except.ok (Value.vStr s)) = .ok (.vStr s)
      rw [hm, ok_bind]
  | vObj ffs =>
    have h' : (mapExcept processDay (ffs.map (fun p => Value.vStr p.1)) >>=
        fun _ => Except.ok (Value.vObj ffs)) = .ok fd' := h
    cases hm : mapExcept processDay (ffs.map (fun p => Value.vStr p.1)) with
    | error e => cases e; rw [hm, error_bind] at h'; exact Except.noConfusion h'
    | ok l =>
      rw [hm, ok_bind] at h'
      cases h'
      show (mapExcept processDay (ffs.map (fun p => Value.vStr p.1)) >>=
        fun _ => Except.ok (Value.vObj ffs)) = .ok (.vObj ffs)
      rw [hm, ok_bind]
  | vNull => exact Except.noConfusion (show (Except.error () : Except Unit Value) = .ok fd' from h)
  | vBool b => exact Except.noConfusion (show (Except.error () : Except Unit Value) = .ok fd' from h)
  | vNum n => exact Except.noConfusion (show (Except.error () : Except Unit Value) = .ok fd' from h)

/-! ## Unfoldings of the Response Normalizer -/

theorem process_obj_no_forecast (pfs : Dict) (hf : dictGetOpt pfs "forecast" = none) :
    process_weather_data (.vObj pfs) = .ok (.vObj pfs) := by
  simp only [process_weather_data, hf]

theorem process_obj_fd (pfs ffs : Dict) (fd : Value)
    (hf : dictGetOpt pfs "forecast" = some (.vObj ffs))
    (hfd : dictGetOpt ffs "forecastday" = some fd) :
    process_weather_data (.vObj pfs) =
      (processForecastDays fd >>= fun fd' =>
        Except.ok (.vObj (dictSet pfs "forecast" (.vObj (dictSet ffs "forecastday" fd'))))) := by
  simp only [process_weather_data, hf, hfd]
  rfl

theorem process_obj_fd_none (pfs ffs : Dict)
    (hf : dictGetOpt pfs "forecast" = some (.vObj ffs))
    (hfd : dictGetOpt ffs "forecastday" = none) :
    process_weather_data (.vObj pfs) = .ok (.vObj pfs) := by
  simp only [process_weather_data, hf, hfd]

theorem process_obj_fstr (pfs : Dict) (s : String)
    (hf : dictGetOpt pfs "forecast" = some (.vStr s)) :
    process_weather_data (.vObj pfs) =
      (if strContains s "forecastday" then .error () else .ok (.vObj pfs)) := by
  simp only [process_weather_data, hf]

theorem process_obj_farr (pfs : Dict) (xs : List Value)
    (hf : dictGetOpt pfs "forecast" = some (.vArr xs)) :
    process_weather_data (.vObj pfs) =
      (if xs.any (fun x => match x with | .vStr s => s == "forecastday" | _ => false)
       then .error () else .ok (.vObj pfs)) := by
  simp only [process_weather_data, hf]

/-- C3: The Response Normalizer is idempotent: whenever it maps a document
`raw` to a normalized document `d`, running it again on `d` returns `d`
unchanged (`Normalize(Normalize(doc)) = Normalize(doc)` on every document it
accepts). -/
theorem process_weather_data_idem (raw d : Value)
    (h : process_weather_data raw = .ok d) : process_weather_data d = .ok d := by
  cases raw with
  | vObj pfs =>
    cases hf : dictGetOpt pfs "forecast" with
    | none =>
      rw [process_obj_no_forecast pfs hf] at h
      cases h
      exact process_obj_no_forecast pfs hf
    | some f =>
      cases f with
      | vObj ffs =>
        cases hfd : dictGetOpt ffs "forecastday" with
        | none =>
          rw [process_obj_fd_none pfs ffs hf hfd] at h
          cases h
          exact process_obj_fd_none pfs ffs hf hfd
        | some fd =>
          rw [process_obj_fd pfs ffs fd hf hfd] at h
          cases hp : processForecastDays fd with
          | error e => cases e; rw [hp, error_bind] at h; exact Except.noConfusion h
          | ok fd' =>
            rw [hp, ok_bind] at h
            cases h
            rw [process_obj_fd (dictSet pfs "forecast" (.vObj (dictSet ffs "forecastday" fd')))
              (dictSet ffs "forecastday" fd') fd'
              (dictGetOpt_dictSet_self pfs "forecast" _)
              (dictGetOpt_dictSet_self ffs "forecastday" fd'),
              processForecastDays_idem fd fd' hp, ok_bind,
              dictSet_dictSet_same, dictSet_dictSet_same]
      | vStr s =>
        by_cases hc : strContains s "forecastday" = true
        · rw [process_obj_fstr pfs s hf, if_pos hc] at h
          exact Except.noConfusion h
        · rw [process_obj_fstr pfs s hf, if_neg hc] at h
          cases h
          rw [process_obj_fstr pfs s hf, if_neg hc]
      | vArr xs =>
        by_cases hc :
            (xs.any (fun x => match x with | .vStr s => s == "forecastday" | _ => false)) = true
        · rw [process_obj_farr pfs xs hf, if_pos hc] at h
          exact Except.noConfusion h
        · rw [process_obj_farr pfs xs hf, if_neg hc] at h
          cases h
          rw [process_obj_farr pfs xs hf, if_neg hc]
      | vNull =>
        rw [process_weather_data, hf] at h
        exact Except.noConfusion (show (Except.error () : Except Unit Value) = .ok d from h)
      | vBool b =>
        rw [process_weather_data, hf] at h
        exact Except.noConfusion (show (Except.error () : Except Unit Value) = .ok d from h)
      | vNum n =>
        rw [process_weather_data, hf] at h
        exact Except.noConfusion (show (Except.error () : Except Unit Value) = .ok d from h)
  | vArr xs =>
    rw [process_weather_data] at h
    by_cases hc : (xs.any (fun x => match x with | .vStr s => s == "forecast" | _ => false)) = true
    · rw [if_pos hc] at h
      exact Except.noConfusion h
    · rw [if_neg hc] at h
      cases (show Except.ok (Value.vArr xs) = .ok d from h)
      rw [process_weather_data, if_neg hc]
  | vNull => exact Except.noConfusion (show (Except.error () : Except Unit Value) = .ok d from h)
  | vBool b => exact Except.noConfusion (show (Except.error () : Except Unit Value) = .ok d from h)
  | vNum n => exact Except.noConfusion (show (Except.error () : Except Unit Value) = .ok d from h)
  | vStr s => exact Except.noConfusion (show (Except.error () : Except Unit Value) = .ok d from h)

/-- Witness for C3: idempotence applied to a concrete document whose astro
block holds a `"No moonrise"` sentinel. -/
theorem process_weather_data_idem_witness :
    process_weather_data exDoc = .ok exDocNorm ∧
      process_weather_data exDocNorm = .ok exDocNorm :=
  ⟨rfl, process_weather_data_idem exDoc exDocNorm rfl⟩

/-! ## The Sanitizer's field-level contract (claims C1 and C2) -/

/-- On success, each time field of the Sanitizer's output holds exactly the
cleaned value of the corresponding raw field. -/
theorem clean_ok_field (fs out : Dict) (h : clean_astronomical_data fs = .ok out) :
    ∀ f, f ∈ time_fields →
      ∃ w, cleanValue (dictGet fs f (.vStr "")) = .ok w ∧ dictGetOpt out f = some w := by
  rw [clean_char] at h
  obtain ⟨w1, w2, w3, w4, h1, h2, h3, h4, rfl⟩ := h
  intro f hf
  simp only [time_fields, List.mem_cons, List.not_mem_nil, or_false] at hf
  rcases hf with rfl | rfl | rfl | rfl
  · exact ⟨w1, h1, by rw [copyOthers_getOpt_time fs _ "moonrise" rfl]; rfl⟩
  · exact ⟨w2, h2, by rw [copyOthers_getOpt_time fs _ "moonset" rfl]; rfl⟩
  · exact ⟨w3, h3, by rw [copyOthers_getOpt_time fs _ "sunrise" rfl]; rfl⟩
  · exact ⟨w4, h4, by rw [copyOthers_getOpt_time fs _ "sunset" rfl]; rfl⟩

/-- C1: on an astronomical record whose four time fields are strings or
missing, the Sanitizer succeeds, and it maps a time field to the absence
marker exactly when its raw value is missing, empty, starts with `"no "` in
any case, or equals `"null"`/`"none"` in any case (`specNoData`); every other
string value passes through unchanged. -/
theorem clean_sanitizes_string_fields (fs : Dict)
    (hstr : ∀ f, f ∈ time_fields → ∀ v, dictGetOpt fs f = some v → ∃ s, v = Value.vStr s) :
    ∃ out, clean_astronomical_data fs = .ok out ∧
      ∀ f, f ∈ time_fields →
        (specNoData (dictGetOpt fs f) = true → dictGetOpt out f = some Value.vNull) ∧
        (specNoData (dictGetOpt fs f) = false → dictGetOpt out f = dictGetOpt fs f) := by
  have e1 := cleanValue_spec (dictGetOpt fs "moonrise") (hstr "moonrise" (by simp [time_fields]))
  have e2 := cleanValue_spec (dictGetOpt fs "moonset") (hstr "moonset" (by simp [time_fields]))
  have e3 := cleanValue_spec (dictGetOpt fs "sunrise") (hstr "sunrise" (by simp [time_fields]))
  have e4 := cleanValue_spec (dictGetOpt fs "sunset") (hstr "sunset" (by simp [time_fields]))
  have hok : clean_astronomical_data fs = .ok (copyOthers fs
      [("moonrise", if specNoData (dictGetOpt fs "moonrise") then Value.vNull
          else (dictGetOpt fs "moonrise").getD (.vStr "")),
       ("moonset", if specNoData (dictGetOpt fs "moonset") then Value.vNull
          else (dictGetOpt fs "moonset").getD (.vStr "")),
       ("sunrise", if specNoData (dictGetOpt fs "sunrise") then Value.vNull
          else (dictGetOpt fs "sunrise").getD (.vStr "")),
       ("sunset", if specNoData (dictGetOpt fs "sunset") then Value.vNull
          else (dictGetOpt fs "sunset").getD (.vStr ""))]) :=
    (clean_char fs _).mpr ⟨_, _, _, _, e1, e2, e3, e4, rfl⟩
  refine ⟨_, hok, ?_⟩
  intro f hf
  obtain ⟨w, hw, hlook⟩ := clean_ok_field fs _ hok f hf
  have hspec := cleanValue_spec (dictGetOpt fs f) (hstr f hf)
  have hweq : w = if specNoData (dictGetOpt fs f) then Value.vNull
      else (dictGetOpt fs f).getD (.vStr "") :=
    Except.ok.inj (hw.symm.trans hspec)
  constructor
  · intro hsp
    rw [hweq, hsp] at hlook
    simpa using hlook
  · intro hsp
    rw [hweq, hsp] at hlook
    simp only [Bool.false_eq_true, if_false] at hlook
    cases ho : dictGetOpt fs f with
    | none =>
      rw [ho] at hsp
      exact absurd hsp (by simp [specNoData])
    | some v =>
      rw [ho] at hlook
      simpa using hlook

/-- Witness for C1: the contract evaluated on a concrete all-string record
(`"No moonrise"` and upper-case `"NULL"` map to the marker, the two valid
times pass through). -/
theorem clean_sanitizes_string_fields_witness :
    ∃ out, clean_astronomical_data exAstro = .ok out ∧
      ∀ f, f ∈ time_fields →
        (specNoData (dictGetOpt exAstro f) = true → dictGetOpt out f = some Value.vNull) ∧
        (specNoData (dictGetOpt exAstro f) = false → dictGetOpt out f = dictGetOpt exAstro f) := by
  refine clean_sanitizes_string_fields exAstro ?_
  intro f hf v hv
  simp only [time_fields, List.mem_cons, List.not_mem_nil, or_false] at hf
  rcases hf with rfl | rfl | rfl | rfl <;>
    simp only [exAstro, dictGetOpt_cons, dictGetOpt_nil] at hv <;>
    exact ⟨_, (by simpa using hv.symm)⟩

theorem cleanValue_falsy (v : Value) (hf : pyFalsy v = true) :
    cleanValue v = .ok .vNull := by
  unfold cleanValue
  rw [if_pos hf]

theorem cleanValue_error_of (v : Value) (hns : ∀ s, v ≠ Value.vStr s)
    (hf : pyFalsy v = false) : cleanValue v = .error () := by
  cases v with
  | vStr s => exact absurd rfl (hns s)
  | vNull => exact absurd hf (by simp [pyFalsy])
  | vBool b =>
    rw [cleanValue, if_neg (by rw [hf]; simp)]
    exact fun s hs => Value.noConfusion hs
  | vNum n =>
    rw [cleanValue, if_neg (by rw [hf]; simp)]
    exact fun s hs => Value.noConfusion hs
  | vArr xs =>
    rw [cleanValue, if_neg (by rw [hf]; simp)]
    exact fun s hs => Value.noConfusion hs
  | vObj fs =>
    rw [cleanValue, if_neg (by rw [hf]; simp)]
    exact fun s hs => Value.noConfusion hs

/-- C2 counterexample: a time field holding the number `5` makes the
Sanitizer raise (`value.lower()` on an `int` is an `AttributeError`), and a
time field holding the falsy number `0` is mapped to the absence marker —
in neither case is the non-string value passed through unchanged. -/
theorem clean_nonstring_counterexample :
    clean_astronomical_data [("moonrise", Value.vNum 5)] = .error () ∧
    clean_astronomical_data [("moonrise", Value.vNum 0)] =
      .ok [("moonrise", Value.vNull), ("moonset", Value.vNull),
           ("sunrise", Value.vNull), ("sunset", Value.vNull)] :=
  ⟨rfl, rfl⟩

/-- C2 amended: a non-string truthy value in a time field makes the Sanitizer
raise (the error is then caught at the City Fetcher boundary), while a
non-string falsy value (0, null, false, empty list or object) is mapped to
the absence marker rather than passed through. -/
theorem clean_nonstring_amended :
    (∀ (fs : Dict) (f : String) (v : Value), f ∈ time_fields →
      dictGetOpt fs f = some v → (∀ s, v ≠ Value.vStr s) → pyFalsy v = false →
      clean_astronomical_data fs = .error ()) ∧
    (∀ (fs out : Dict) (f : String) (v : Value), f ∈ time_fields →
      dictGetOpt fs f = some v → pyFalsy v = true →
      clean_astronomical_data fs = .ok out → dictGetOpt out f = some Value.vNull) := by
  constructor
  · intro fs f v hmem hget hns hf
    refine (clean_error_iff fs).mpr ⟨f, hmem, ?_⟩
    have hv : dictGet fs f (.vStr "") = v := by rw [dictGet, hget]; rfl
    rw [hv]
    exact cleanValue_error_of v hns hf
  · intro fs out f v hmem hget hfalsy hclean
    obtain ⟨w, hw, hlook⟩ := clean_ok_field fs out hclean f hmem
    have hv : dictGet fs f (.vStr "") = v := by rw [dictGet, hget]; rfl
    rw [hv, cleanValue_falsy v hfalsy] at hw
    cases hw
    exact hlook

/-- Witness for C2 amended: a truthy number raises, and a falsy number's
field comes out as the absence marker. -/
theorem clean_nonstring_amended_witness :
    clean_astronomical_data [("moonrise", Value.vNum 5)] = .error () ∧
    dictGetOpt [("moonrise", Value.vNull), ("moonset", Value.vNull),
      ("sunrise", Value.vNull), ("sunset", Value.vNull)] "moonrise" = some Value.vNull :=
  ⟨clean_nonstring_amended.1 [("moonrise", .vNum 5)] "moonrise" (.vNum 5)
      (by simp [time_fields]) rfl (fun s hs => Value.noConfusion hs) rfl,
   clean_nonstring_amended.2 [("moonrise", .vNum 0)]
      [("moonrise", Value.vNull), ("moonset", Value.vNull),
       ("sunrise", Value.vNull), ("sunset", Value.vNull)] "moonrise" (.vNum 0)
      (by simp [time_fields]) rfl rfl rfl⟩

/-! ## Structure preservation of the Normalizer (claim C4) -/

/-- The per-day frame property: a processed day agrees with the original on
every field except `astro`; a day without an astro block, or a non-dict day,
comes out identical. -/
theorem processDay_frame (day day' : Value) (h : processDay day = .ok day') :
    (∀ dfs0 : Dict, day = .vObj dfs0 →
      ∃ dfs1 : Dict, day' = .vObj dfs1 ∧
        (∀ k, k ≠ "astro" → dictGetOpt dfs1 k = dictGetOpt dfs0 k) ∧
        (dictGetOpt dfs0 "astro" = none → day' = day)) ∧
    ((∀ dfs0 : Dict, day ≠ .vObj dfs0) → day' = day) := by
  cases day with
  | vObj dfs =>
    refine ⟨?_, fun hne => absurd rfl (hne dfs)⟩
    intro dfs0 heq
    injection heq with heq'
    subst heq'
    cases ha : dictGetOpt dfs "astro" with
    | none =>
      rw [processDay_obj_none dfs ha] at h
      cases h
      exact ⟨dfs, rfl, fun k _ => rfl, fun _ => rfl⟩
    | some a =>
      cases a with
      | vObj afs =>
        rw [processDay_obj dfs afs ha] at h
        cases hc : clean_astronomical_data afs with
        | error e => cases e; rw [hc, error_bind] at h; exact Except.noConfusion h
        | ok cleaned =>
          rw [hc, ok_bind] at h
          cases h
          refine ⟨dictSet dfs "astro" (.vObj cleaned), rfl, ?_, ?_⟩
          · intro k hk
            exact dictGetOpt_dictSet_ne dfs "astro" k (.vObj cleaned) hk
          · intro hn
            exact Option.noConfusion hn
      | vNull =>
        rw [processDay, ha] at h
        exact Except.noConfusion (show (Except.error () : Except Unit Value) = .ok day' from h)
      | vBool b =>
        rw [processDay, ha] at h
        exact Except.noConfusion (show (Except.error () : Except Unit Value) = .ok day' from h)
      | vNum n =>
        rw [processDay, ha] at h
        exact Except.noConfusion (show (Except.error () : Except Unit Value) = .ok day' from h)
      | vStr s =>
        rw [processDay, ha] at h
        exact Except.noConfusion (show (Except.error () : Except Unit Value) = .ok day' from h)
      | vArr xs =>
        rw [processDay, ha] at h
        exact Except.noConfusion (show (Except.error () : Except Unit Value) = .ok day' from h)
  | vStr s =>
    rw [processDay] at h
    by_cases hc : strContains s "astro" = true
    · rw [if_pos hc] at h
      exact Except.noConfusion h
    · rw [if_neg hc] at h
      cases (show Except.ok (Value.vStr s) = .ok day' from h)
      exact ⟨fun dfs0 heq => Value.noConfusion heq, fun _ => rfl⟩
  | vArr xs =>
    rw [processDay] at h
    by_cases hc : (xs.any (fun x => match x with | .vStr s => s == "astro" | _ => false)) = true
    · rw [if_pos hc] at h
      exact Except.noConfusion h
    · rw [if_neg hc] at h
      cases (show Except.ok (Value.vArr xs) = .ok day' from h)
      exact ⟨fun dfs0 heq => Value.noConfusion heq, fun _ => rfl⟩
  | vNull =>
    exact Except.noConfusion (show (Except.error () : Except Unit Value) = .ok day' from h)
  | vBool b =>
    exact Except.noConfusion (show (Except.error () : Except Unit Value) = .ok day' from h)
  | vNum n =>
    exact Except.noConfusion (show (Except.error () : Except Unit Value) = .ok day' from h)

/-- C4: the Response Normalizer alters only the per-day astro blocks.  On
success every top-level field other than `forecast` is unchanged; inside
`forecast`, every field other than `forecastday` is unchanged; the day list
is mapped day-by-day, where each day keeps every field except `astro`, and a
day without an astro block (in particular) is left entirely untouched — and
such days never cause an error (first conjunct). -/
theorem process_preserves_structure (pfs : Dict) (d : Value)
    (h : process_weather_data (.vObj pfs) = .ok d) :
    (∀ dfs0 : Dict, dictGetOpt dfs0 "astro" = none →
      processDay (.vObj dfs0) = .ok (.vObj dfs0)) ∧
    ∃ dfs : Dict, d = .vObj dfs ∧
      (∀ k, k ≠ "forecast" → dictGetOpt dfs k = dictGetOpt pfs k) ∧
      (∀ ffs : Dict, dictGetOpt pfs "forecast" = some (.vObj ffs) →
        ∃ ffs' : Dict, dictGetOpt dfs "forecast" = some (.vObj ffs') ∧
          (∀ k, k ≠ "forecastday" → dictGetOpt ffs' k = dictGetOpt ffs k) ∧
          (∀ ds : List Value, dictGetOpt ffs "forecastday" = some (.vArr ds) →
            ∃ ds' : List Value, dictGetOpt ffs' "forecastday" = some (.vArr ds') ∧
              List.Forall₂ (fun day day' =>
                (∀ dfs0 : Dict, day = .vObj dfs0 →
                  ∃ dfs1 : Dict, day' = .vObj dfs1 ∧
                    (∀ k, k ≠ "astro" → dictGetOpt dfs1 k = dictGetOpt dfs0 k) ∧
                    (dictGetOpt dfs0 "astro" = none → day' = day)) ∧
                ((∀ dfs0 : Dict, day ≠ .vObj dfs0) → day' = day)) ds ds')) := by
  refine ⟨fun dfs0 ha => processDay_obj_none dfs0 ha, ?_⟩
  cases hf : dictGetOpt pfs "forecast" with
  | none =>
    rw [process_obj_no_forecast pfs hf] at h
    cases h
    refine ⟨pfs, rfl, fun k _ => rfl, ?_⟩
    intro ffs hff
    exact Option.noConfusion hff
  | some f =>
    cases f with
    | vObj ffs =>
      cases hfd : dictGetOpt ffs "forecastday" with
      | none =>
        rw [process_obj_fd_none pfs ffs hf hfd] at h
        cases h
        refine ⟨pfs, rfl, fun k _ => rfl, ?_⟩
        intro ffs0 hff0
        injection hff0 with hv
        injection hv with hv'
        subst hv'
        refine ⟨ffs, hf, fun k _ => rfl, ?_⟩
        intro ds hds
        rw [hfd] at hds
        exact Option.noConfusion hds
      | some fd =>
        rw [process_obj_fd pfs ffs fd hf hfd] at h
        cases hp : processForecastDays fd with
        | error e => cases e; rw [hp, error_bind] at h; exact Except.noConfusion h
        | ok fd' =>
          rw [hp, ok_bind] at h
          cases h
          refine ⟨dictSet pfs "forecast" (.vObj (dictSet ffs "forecastday" fd')), rfl, ?_, ?_⟩
          · intro k hk
            exact dictGetOpt_dictSet_ne pfs "forecast" k _ hk
          · intro ffs0 hff0
            injection hff0 with hv
            injection hv with hv'
            subst hv'
            refine ⟨dictSet ffs "forecastday" fd',
              dictGetOpt_dictSet_self pfs "forecast" _, ?_, ?_⟩
            · intro k hk
              exact dictGetOpt_dictSet_ne ffs "forecastday" k fd' hk
            · intro ds hds
              rw [hfd] at hds
              injection hds with hv2
              subst hv2
              have h' : (mapExcept processDay ds >>= fun x =>
                  Except.ok (Value.vArr x)) = .ok fd' := hp
              cases hm : mapExcept processDay ds with
              | error e => cases e; rw [hm, error_bind] at h'; exact Except.noConfusion h'
              | ok ds' =>
                rw [hm, ok_bind] at h'
                cases h'
                refine ⟨ds', dictGetOpt_dictSet_self ffs "forecastday" _, ?_⟩
                exact List.Forall₂.imp (fun a b hab => processDay_frame a b hab)
                  (mapExcept_forall processDay ds ds' hm)
    | vStr s =>
      by_cases hc : strContains s "forecastday" = true
      · rw [process_obj_fstr pfs s hf, if_pos hc] at h
        exact Except.noConfusion h
      · rw [process_obj_fstr pfs s hf, if_neg hc] at h
        cases h
        refine ⟨pfs, rfl, fun k _ => rfl, ?_⟩
        intro ffs0 hff0
        injection hff0 with hv
        exact Value.noConfusion hv
    | vArr xs =>
      by_cases hc :
          (xs.any (fun x => match x with | .vStr s => s == "forecastday" | _ => false)) = true
      · rw [process_obj_farr pfs xs hf, if_pos hc] at h
        exact Except.noConfusion h
      · rw [process_obj_farr pfs xs hf, if_neg hc] at h
        cases h
        refine ⟨pfs, rfl, fun k _ => rfl, ?_⟩
        intro ffs0 hff0
        injection hff0 with hv
        exact Value.noConfusion hv
    | vNull =>
      rw [process_weather_data, hf] at h
      exact Except.noConfusion (show (Except.error () : Except Unit Value) = .ok d from h)
    | vBool b =>
      rw [process_weather_data, hf] at h
      exact Except.noConfusion (show (Except.error () : Except Unit Value) = .ok d from h)
    | vNum n =>
      rw [process_weather_data, hf] at h
      exact Except.noConfusion (show (Except.error () : Except Unit Value) = .ok d from h)

/-- Witness for C4: structure preservation applied to the concrete document
`exDoc` (whose normalization is `exDocNorm`). -/
theorem process_preserves_structure_witness :
    (∀ dfs0 : Dict, dictGetOpt dfs0 "astro" = none →
      processDay (.vObj dfs0) = .ok (.vObj dfs0)) ∧
    ∃ dfs : Dict, exDocNorm = .vObj dfs ∧
      (∀ k, k ≠ "forecast" → dictGetOpt dfs k = dictGetOpt exDocFields k) ∧
      (∀ ffs : Dict, dictGetOpt exDocFields "forecast" = some (.vObj ffs) →
        ∃ ffs' : Dict, dictGetOpt dfs "forecast" = some (.vObj ffs') ∧
          (∀ k, k ≠ "forecastday" → dictGetOpt ffs' k = dictGetOpt ffs k) ∧
          (∀ ds : List Value, dictGetOpt ffs "forecastday" = some (.vArr ds) →
            ∃ ds' : List Value, dictGetOpt ffs' "forecastday" = some (.vArr ds') ∧
              List.Forall₂ (fun day day' =>
                (∀ dfs0 : Dict, day = .vObj dfs0 →
                  ∃ dfs1 : Dict, day' = .vObj dfs1 ∧
                    (∀ k, k ≠ "astro" → dictGetOpt dfs1 k = dictGetOpt dfs0 k) ∧
                    (dictGetOpt dfs0 "astro" = none → day' = day)) ∧
                ((∀ dfs0 : Dict, day ≠ .vObj dfs0) → day' = day)) ds ds')) :=
  process_preserves_structure exDocFields exDocNorm rfl

/-! ## The City Fetcher on malformed documents (claim C5) -/

theorem dictGetOpt_eq_none_iff (d : Dict) (k : String) :
    dictGetOpt d k = none ↔ (d.any (fun p => p.1 == k)) = false := by
  induction d with
  | nil => simp
  | cons p rest ih =>
    by_cases hp : p.1 = k <;> simp [hp, ih]

theorem structureOk_obj (pfs : Dict) :
    structureOk (.vObj pfs) =
      .ok ((pfs.any (fun p => p.1 == "location")) &&
        ((pfs.any (fun p => p.1 == "current")) && (pfs.any (fun p => p.1 == "forecast")))) := by
  simp only [structureOk, pyContains, ok_bind]
  cases ha : pfs.any (fun p => p.1 == "location")
  · rfl
  · cases hb : pfs.any (fun p => p.1 == "current")
    · rfl
    · cases hc : pfs.any (fun p => p.1 == "forecast") <;> rfl

/-- C5: on a 2xx response whose parsed document is an object missing any of
the three required sections, the City Fetcher returns the invalid-structure
failure for that city and performs no file write. -/
theorem fetch_missing_section (city : String) (status : Nat) (pfs : Dict)
    (hstatus : status < 400)
    (hmiss : dictGetOpt pfs "location" = none ∨ dictGetOpt pfs "current" = none ∨
      dictGetOpt pfs "forecast" = none) :
    fetch_weather_for_city city (.ok status (some (.vObj pfs))) =
      ⟨false, none, some .invalidStructure⟩ := by
  have hso : structureOk (.vObj pfs) = .ok false := by
    rw [structureOk_obj]
    rcases hmiss with hm | hm | hm <;> rw [(dictGetOpt_eq_none_iff _ _).mp hm] <;> simp
  simp only [fetch_weather_for_city]
  rw [if_neg (by omega)]
  simp only [hso]

/-- Witness for C5: a 200 response carrying only `location` and `current`. -/
theorem fetch_missing_section_witness :
    fetch_weather_for_city "Mumbai"
        (.ok 200 (some (.vObj [("location", .vObj []), ("current", .vObj [])]))) =
      ⟨false, none, some .invalidStructure⟩ :=
  fetch_missing_section "Mumbai" 200 [("location", .vObj []), ("current", .vObj [])]
    (by decide) (Or.inr (Or.inr rfl))

/-! ## Filename derivation (claim C8) -/

/-- C8: the output file name is the city name with every space and every
hyphen replaced by an underscore, followed by the fixed `_latest.json`
suffix; in particular `"New Delhi"` maps to `"New_Delhi_latest.json"` and
`"Rio-Branco"` to `"Rio_Branco_latest.json"`. -/
theorem fileName_spec :
    (∀ city : String, fileName city =
      String.mk (city.data.map (fun c => if c = ' ' ∨ c = '-' then '_' else c)) ++
        "_latest.json") ∧
    fileName "New Delhi" = "New_Delhi_latest.json" ∧
    fileName "Rio-Branco" = "Rio_Branco_latest.json" := by
  refine ⟨?_, rfl, rfl⟩
  intro city
  rw [fileName, safe_city_name, List.map_map]
  have hfun : ((fun c => if c = '-' then '_' else c) ∘ (fun c => if c = ' ' then '_' else c)) =
      (fun c : Char => if c = ' ' ∨ c = '-' then '_' else c) := by
    funext c
    by_cases h1 : c = ' '
    · subst h1; decide
    · by_cases h2 : c = '-'
      · subst h2; decide
      · simp [Function.comp, h1, h2]
  rw [hfun]

/-! ## The Orchestrator loop (claims C6 and C7) -/

theorem mainRun_foldl (env : Nat → NetResult) (l : List (Nat × String)) (s f : List String) :
    l.foldl (fun acc p =>
      if (fetch_weather_for_city p.2 (env p.1)).retval
      then RunSummary.mk (acc.successes ++ [p.2]) acc.failures
      else RunSummary.mk acc.successes (acc.failures ++ [p.2])) ⟨s, f⟩ =
    ⟨s ++ (l.filter (fun p => (fetch_weather_for_city p.2 (env p.1)).retval)).map Prod.snd,
     f ++ (l.filter (fun p => !(fetch_weather_for_city p.2 (env p.1)).retval)).map Prod.snd⟩ := by
  induction l generalizing s f with
  | nil => simp
  | cons p rest ih =>
    rw [List.foldl_cons]
    cases hp : (fetch_weather_for_city p.2 (env p.1)).retval
    · rw [if_neg (by simp [hp])]
      rw [ih]
      simp [List.filter_cons, hp]
    · rw [if_pos rfl]
      rw [ih]
      simp [List.filter_cons, hp]

/-- The Orchestrator's aggregation in closed form: it visits every enumerated
city and partitions them by the fetch outcome. -/
theorem mainRun_eq (env : Nat → NetResult) :
    mainRun env =
      ⟨((CITIES.enumFrom 1).filter
          (fun p => (fetch_weather_for_city p.2 (env p.1)).retval)).map Prod.snd,
       ((CITIES.enumFrom 1).filter
          (fun p => !(fetch_weather_for_city p.2 (env p.1)).retval)).map Prod.snd⟩ := by
  rw [mainRun, mainRun_foldl env (CITIES.enumFrom 1) [] []]
  simp

theorem length_filter_partition {α : Type} (l : List α) (pred : α → Bool) :
    (l.filter pred).length + (l.filter (fun a => !(pred a))).length = l.length := by
  induction l with
  | nil => simp
  | cons a rest ih =>
    cases ha : pred a <;> simp [List.filter_cons, ha] <;> omega

/-- C6: every per-city error is converted into a classified failure outcome
at the City Fetcher boundary (the fetch function is total, and its boolean
result is `false` exactly when it reports an error kind), and the
Orchestrator visits every configured city regardless of earlier failures,
partitioning them by outcome. -/
theorem fetch_errors_contained :
    (∀ (city : String) (net : NetResult),
      ((fetch_weather_for_city city net).retval = false ↔
        (fetch_weather_for_city city net).kind.isSome = true)) ∧
    (∀ env : Nat → NetResult,
      (mainRun env).successes =
        ((CITIES.enumFrom 1).filter
          (fun p => (fetch_weather_for_city p.2 (env p.1)).retval)).map Prod.snd ∧
      (mainRun env).failures =
        ((CITIES.enumFrom 1).filter
          (fun p => !(fetch_weather_for_city p.2 (env p.1)).retval)).map Prod.snd) := by
  constructor
  · intro city net
    cases net with
    | connError => simp [fetch_weather_for_city]
    | timeoutErr => simp [fetch_weather_for_city]
    | otherReqError => simp [fetch_weather_for_city]
    | ok status body =>
      simp only [fetch_weather_for_city]
      by_cases hs : 400 ≤ status ∧ status < 600
      · rw [if_pos hs]; simp
      · rw [if_neg hs]
        cases body with
        | none => simp
        | some raw =>
          cases hso : structureOk raw with
          | error e => cases e; simp [hso]
          | ok b =>
            cases b with
            | false => simp [hso]
            | true =>
              cases hw : normalizeAndStats raw with
              | error e => cases e; simp [hso, hw]
              | ok wd =>
                cases hsr : summaryReads wd with
                | error e => cases e; simp [hso, hw, hsr]
                | ok u => cases u; simp [hso, hw, hsr]
  · intro env
    rw [mainRun_eq]
    exact ⟨rfl, rfl⟩

/-- Witness for C6 (none of its binders is a hypothesis, but we record the
classification evaluated at one concrete error and the 9-city loop once). -/
theorem fetch_errors_contained_witness :
    ((fetch_weather_for_city "Mumbai" .timeoutErr).retval = false ↔
      (fetch_weather_for_city "Mumbai" .timeoutErr).kind.isSome = true) ∧
    (mainRun envOneFail).failures = ["Mandya"] :=
  ⟨fetch_errors_contained.1 "Mumbai" .timeoutErr, by rfl⟩

theorem filter_pred_count (l : List (Nat × String)) (pred : Nat × String → Bool) (i : Nat)
    (ht : ∀ p ∈ l, p.1 ≠ i → pred p = true)
    (hf : ∀ p ∈ l, p.1 = i → pred p = false) :
    (l.filter pred).length = (l.filter (fun p => p.1 != i)).length ∧
    (l.filter (fun p => !(pred p))).length = (l.filter (fun p => p.1 == i)).length := by
  induction l with
  | nil => simp
  | cons p rest ih =>
    obtain ⟨ih1, ih2⟩ := ih (fun q hq => ht q (by simp [hq]))
      (fun q hq => hf q (by simp [hq]))
    by_cases hp : p.1 = i
    · have hpf := hf p (by simp) hp
      simp [List.filter_cons, hpf, hp, ih1, ih2]
    · have hpt := ht p (by simp) hp
      simp [List.filter_cons, hpt, hp, ih1, ih2]

/-- C7: the run partitions the nine configured cities into success and
failure lists by fetch outcome (the list lengths always sum to the city
count), the exit status is 0 exactly when no city failed and 1 exactly when
some city failed; and when exactly the city at one position fails, the lists
have 8 and 1 entries and the exit status is 1. -/
theorem main_exit_partition :
    (∀ env : Nat → NetResult,
      (mainRun env).successes.length + (mainRun env).failures.length = CITIES.length ∧
      (exitStatus env = 0 ↔ (mainRun env).failures = []) ∧
      (exitStatus env = 1 ↔ (mainRun env).failures ≠ [])) ∧
    (∀ (env : Nat → NetResult) (i : Nat), 1 ≤ i → i ≤ 9 →
      (∀ p ∈ CITIES.enumFrom 1, p.1 ≠ i →
        (fetch_weather_for_city p.2 (env p.1)).retval = true) →
      (∀ p ∈ CITIES.enumFrom 1, p.1 = i →
        (fetch_weather_for_city p.2 (env p.1)).retval = false) →
      (mainRun env).successes.length = 8 ∧ (mainRun env).failures.length = 1 ∧
        exitStatus env = 1) := by
  have hlen : ∀ env : Nat → NetResult,
      (mainRun env).successes.length + (mainRun env).failures.length = CITIES.length := by
    intro env
    rw [mainRun_eq]
    simp only [List.length_map]
    rw [length_filter_partition]
    simp [CITIES, List.enumFrom]
  have hiff : ∀ env : Nat → NetResult, mainReturn env = true ↔ (mainRun env).failures = [] := by
    intro env
    rw [mainReturn]
    simp [List.length_eq_zero]
  constructor
  · intro env
    refine ⟨hlen env, ?_, ?_⟩
    · by_cases hr : mainReturn env = true
      · simp [exitStatus, hr, (hiff env).mp hr]
      · have hr' : mainReturn env = false := by
          cases hmr : mainReturn env
          · rfl
          · exact absurd hmr hr
        constructor
        · intro h0
          rw [exitStatus, hr'] at h0
          simp at h0
        · intro hnil
          exact absurd ((hiff env).mpr hnil) hr
    · by_cases hr : mainReturn env = true
      · have hnil := (hiff env).mp hr
        simp [exitStatus, hr, hnil]
      · have hr' : mainReturn env = false := by
          cases hmr : mainReturn env
          · rfl
          · exact absurd hmr hr
        have hne : (mainRun env).failures ≠ [] := fun hnil => hr ((hiff env).mpr hnil)
        simp [exitStatus, hr', hne]
  · intro env i h1 h9 hsucc hfail
    obtain ⟨hc1, hc2⟩ := filter_pred_count (CITIES.enumFrom 1)
      (fun p => (fetch_weather_for_city p.2 (env p.1)).retval) i hsucc hfail
    have hS : (mainRun env).successes.length =
        ((CITIES.enumFrom 1).filter (fun p => p.1 != i)).length := by
      rw [mainRun_eq]
      simpa using hc1
    have hF : (mainRun env).failures.length =
        ((CITIES.enumFrom 1).filter (fun p => p.1 == i)).length := by
      rw [mainRun_eq]
      simpa using hc2
    have hFi : ((CITIES.enumFrom 1).filter (fun p => p.1 == i)).length = 1 := by
      interval_cases i <;> rfl
    have hSi : ((CITIES.enumFrom 1).filter (fun p => p.1 != i)).length = 8 := by
      interval_cases i <;> rfl
    refine ⟨hS.trans hSi, hF.trans hFi, ?_⟩
    have hne : (mainRun env).failures ≠ [] := by
      intro hnil
      rw [hnil] at hF
      rw [hFi] at hF
      exact Nat.noConfusion hF
    have hr' : mainReturn env = false := by
      rw [mainReturn]
      have : (mainRun env).failures.length = 1 := hF.trans hFi
      rw [this]
      rfl
    rw [exitStatus, hr']
    rfl

/-- Witness for C7: the 9-city scenario in which exactly request 5 (Mandya)
gets a 404 and every other city succeeds. -/
theorem main_exit_partition_witness :
    (mainRun envOneFail).successes.length = 8 ∧
      (mainRun envOneFail).failures.length = 1 ∧ exitStatus envOneFail = 1 := by
  refine main_exit_partition.2 envOneFail 5 (by decide) (by decide) ?_ ?_
  · intro p hp hne
    fin_cases hp <;> first
      | exact absurd rfl hne
      | rfl
  · intro p hp he
    fin_cases hp <;> first
      | rfl
      | exact absurd he (by decide)

/-! ## Purity of the Sanitizer at the object level (claim C9) -/

theorem setD_self {α : Type} (l : List α) (d : α) :
    ∀ r, r < l.length → l.set r (l.getD r d) = l := by
  induction l with
  | nil => intro r hr; simp at hr
  | cons a t ih =>
    intro r hr
    cases r with
    | zero => rfl
    | succ n =>
      have hn : n < t.length := by simpa using hr
      have hd : (a :: t).getD (n + 1) d = t.getD n d := by
        rw [List.getD_eq_getElem?_getD, List.getD_eq_getElem?_getD, List.getElem?_cons_succ]
      show a :: t.set n ((a :: t).getD (n + 1) d) = a :: t
      rw [hd, ih n hn]

theorem heapSet_self (h : Heap) (r : Nat) (hr : r < h.length) :
    heapSet h r (heapGet h r) = h := by
  rw [heapSet, heapGet]
  exact setD_self h [] r hr

theorem heapGet_heapSet_ne (h : Heap) (r r' : Nat) (d : Dict) (hne : r' ≠ r) :
    heapGet (heapSet h r d) r' = heapGet h r' := by
  rw [heapGet, heapSet, heapGet, List.getD_eq_getElem?_getD, List.getD_eq_getElem?_getD,
    List.getElem?_set_ne (fun he => hne he.symm)]

theorem heapGet_heapSet_self (h : Heap) (r : Nat) (d : Dict) (hr : r < h.length) :
    heapGet (heapSet h r d) r = d := by
  rw [heapGet, heapSet, List.getD_eq_getElem?_getD, List.getElem?_set_self hr]
  rfl

theorem heapSet_heapSet (h : Heap) (r : Nat) (d d' : Dict) :
    heapSet (heapSet h r d) r d' = heapSet h r d' := by
  rw [heapSet, heapSet, heapSet, List.set_set]

theorem heapGet_concat (h : Heap) (x : Dict) : heapGet (h ++ [x]) h.length = x := by
  rw [heapGet, List.getD_eq_getElem?_getD, List.getElem?_concat_length]
  rfl

theorem heapGet_append (h : Heap) (x : Dict) (r : Nat) (hr : r < h.length) :
    heapGet (h ++ [x]) r = heapGet h r := by
  rw [heapGet, heapGet, List.getD_append h [x] [] r hr]

theorem length_heapSet (h : Heap) (r : Nat) (d : Dict) :
    (heapSet h r d).length = h.length := by
  rw [heapSet, List.length_set]

/-- The time-field loop at the object level writes only the fresh dict: it
equals the pure loop run on the fresh dict's contents, installed back with a
single write. -/
theorem heap_fold_eq (r cr : Nat) (hne : r ≠ cr) :
    ∀ (l : List String) (hh : Heap), cr < hh.length →
      foldlExcept (fun hh2 field => do
          let v ← cleanValue (dictGet (heapGet hh2 r) field (.vStr ""))
          pure (heapSet hh2 cr (dictSet (heapGet hh2 cr) field v))) hh l =
      Except.map (fun b => heapSet hh cr b)
        (foldlExcept (fun acc field => do
            let v ← cleanValue (dictGet (heapGet hh r) field (.vStr ""))
            pure (dictSet acc field v)) (heapGet hh cr) l) := by
  intro l
  induction l with
  | nil =>
    intro hh hcr
    rw [foldlExcept_nil, foldlExcept_nil]
    show Except.ok hh = Except.ok (heapSet hh cr (heapGet hh cr))
    rw [heapSet_self hh cr hcr]
  | cons a as ih =>
    intro hh hcr
    rw [foldlExcept_cons, foldlExcept_cons]
    cases hv : cleanValue (dictGet (heapGet hh r) a (.vStr "")) with
    | error e =>
      cases e
      rfl
    | ok v =>
      simp only [hv, ok_bind, pureBind]
      have hcr' : cr < (heapSet hh cr (dictSet (heapGet hh cr) a v)).length := by
        rw [length_heapSet]; exact hcr
      rw [ih _ hcr']
      have e1 : heapGet (heapSet hh cr (dictSet (heapGet hh cr) a v)) r = heapGet hh r :=
        heapGet_heapSet_ne hh cr r _ hne
      have e2 : heapGet (heapSet hh cr (dictSet (heapGet hh cr) a v)) cr =
          dictSet (heapGet hh cr) a v :=
        heapGet_heapSet_self hh cr _ hcr
      have e3 : (fun b => heapSet (heapSet hh cr (dictSet (heapGet hh cr) a v)) cr b) =
          (fun b => heapSet hh cr b) := funext (fun b => heapSet_heapSet hh cr _ b)
      rw [e1, e2, e3]

/-- The copy loop at the object level writes only the fresh dict. -/
theorem heap_copy_fold (cr : Nat) :
    ∀ (l : Dict) (hh : Heap), cr < hh.length →
      l.foldl (fun hh2 p => if time_fields.contains p.1 then hh2
          else heapSet hh2 cr (dictSet (heapGet hh2 cr) p.1 p.2)) hh =
      heapSet hh cr (copyOthers l (heapGet hh cr)) := by
  intro l
  induction l with
  | nil =>
    intro hh hcr
    rw [List.foldl_nil, copyOthers_nil, heapSet_self hh cr hcr]
  | cons p rest ih =>
    intro hh hcr
    rw [List.foldl_cons, copyOthers_cons]
    by_cases hp : time_fields.contains p.1
    · rw [if_pos hp, if_pos hp]
      exact ih hh hcr
    · rw [if_neg hp, if_neg hp]
      have hcr' : cr < (heapSet hh cr (dictSet (heapGet hh cr) p.1 p.2)).length := by
        rw [length_heapSet]; exact hcr
      rw [ih _ hcr', heapGet_heapSet_self hh cr _ hcr, heapSet_heapSet]

/-- C9: the Sanitizer is pure at the object level: it allocates the cleaned
record at a fresh reference (`cr = h.length`, distinct from the input
reference), every pre-existing heap object — in particular the input record —
is unchanged, and the fresh object holds exactly the Sanitizer's value-level
output for the input record. -/
theorem cleanAstroHeap_pure (h : Heap) (r : Nat) (hr : r < h.length) (h' : Heap) (cr : Nat)
    (hok : cleanAstroHeap h r = .ok (h', cr)) :
    cr = h.length ∧ r ≠ cr ∧
    (∀ r', r' < h.length → heapGet h' r' = heapGet h r') ∧
    clean_astronomical_data (heapGet h r) = .ok (heapGet h' cr) := by
  have hne : r ≠ h.length := by omega
  have hlen1 : h.length < (h ++ [[]]).length := by simp
  simp only [cleanAstroHeap] at hok
  rw [heap_fold_eq r h.length hne time_fields (h ++ [[]]) hlen1] at hok
  rw [heapGet_append h [] r hr, heapGet_concat h []] at hok
  cases hbase : foldlExcept (fun acc field => do
      let v ← cleanValue (dictGet (heapGet h r) field (.vStr ""))
      pure (dictSet acc field v)) [] time_fields with
  | error e =>
    cases e
    rw [hbase] at hok
    exact Except.noConfusion (show (Except.error () : Except Unit (Heap × Nat)) = _ from hok)
  | ok base =>
    rw [hbase] at hok
    simp only [Except.map, ok_bind] at hok
    have hcr2 : h.length < (heapSet (h ++ [[]]) h.length base).length := by
      rw [length_heapSet]; exact hlen1
    rw [heap_copy_fold h.length _ _ hcr2] at hok
    rw [heapGet_heapSet_ne _ _ _ _ hne, heapGet_append h [] r hr,
      heapGet_heapSet_self _ _ _ hlen1, heapSet_heapSet] at hok
    have hok' : (heapSet (h ++ [[]]) h.length (copyOthers (heapGet h r) base), h.length) =
        (h', cr) := by
      cases hok
      rfl
    injection hok' with hh' hcr'
    subst hh'
    subst hcr'
    refine ⟨rfl, hne, ?_, ?_⟩
    · intro r' hr'
      rw [heapGet_heapSet_ne _ _ _ _ (by omega), heapGet_append h [] r' hr']
    · rw [heapGet_heapSet_self _ _ _ hlen1]
      rw [clean_astronomical_data, hbase, ok_bind]
      rfl

/-- Witness for C9: purity evaluated on a one-record heap. -/
theorem cleanAstroHeap_pure_witness :
    (0 : Nat) = exHeap.length - 1 ∧
    heapGet [[("moonrise", .vStr "06:00 AM")],
      [("moonrise", .vStr "06:00 AM"), ("moonset", Value.vNull),
       ("sunrise", Value.vNull), ("sunset", Value.vNull)]] 0 = heapGet exHeap 0 ∧
    clean_astronomical_data (heapGet exHeap 0) =
      .ok (heapGet [[("moonrise", .vStr "06:00 AM")],
        [("moonrise", .vStr "06:00 AM"), ("moonset", Value.vNull),
         ("sunrise", Value.vNull), ("sunset", Value.vNull)]] 1) := by
  obtain ⟨hcr, hne, hpres, hval⟩ := cleanAstroHeap_pure exHeap 0 (by decide)
    [[("moonrise", .vStr "06:00 AM")],
     [("moonrise", .vStr "06:00 AM"), ("moonset", Value.vNull),
      ("sunrise", Value.vNull), ("sunset", Value.vNull)]] 1 rfl
  exact ⟨rfl, hpres 0 (by decide), hval⟩

/-! ## The statistics loop on a day without an astro block (claim C10) -/

theorem foldlExcept_error_of_mem {α β : Type} (f : β → α → Except Unit β) (x : α)
    (herr : ∀ acc, f acc x = .error ()) :
    ∀ (l : List α), x ∈ l → ∀ init, foldlExcept f init l = .error () := by
  intro l
  induction l with
  | nil => intro hx; cases hx
  | cons a as ih =>
    intro hx init
    rw [foldlExcept_cons]
    rcases List.mem_cons.mp hx with rfl | hx'
    · rw [herr init, error_bind]
    · cases hfa : f init a with
      | error e => cases e; rw [error_bind]
      | ok acc => rw [ok_bind]; exact ih hx' acc

theorem any_key_of_ne_none (d : Dict) (k : String) (h : dictGetOpt d k ≠ none) :
    (d.any (fun p => p.1 == k)) = true := by
  cases hx : d.any (fun p => p.1 == k) with
  | false => exact absurd ((dictGetOpt_eq_none_iff d k).mpr hx) h
  | true => rfl

/-- C10: a response that passes the top-level schema check but whose
forecast day list contains a day object without an `astro` key makes the
City Fetcher fail generically (the statistics loop subscripts `day['astro']`
unconditionally) and write no output file, although the Normalizer itself
tolerates such days. -/
theorem fetch_day_without_astro (city : String) (status : Nat) (pfs ffs : Dict)
    (ds : List Value)
    (hstatus : status < 400)
    (hloc : dictGetOpt pfs "location" ≠ none)
    (hcur : dictGetOpt pfs "current" ≠ none)
    (hf : dictGetOpt pfs "forecast" = some (.vObj ffs))
    (hfd : dictGetOpt ffs "forecastday" = some (.vArr ds))
    (hday : ∃ dfs0 : Dict, Value.vObj dfs0 ∈ ds ∧ dictGetOpt dfs0 "astro" = none) :
    fetch_weather_for_city city (.ok status (some (.vObj pfs))) =
      ⟨false, none, some .genericError⟩ := by
  have hso : structureOk (.vObj pfs) = .ok true := by
    rw [structureOk_obj, any_key_of_ne_none pfs "location" hloc,
      any_key_of_ne_none pfs "current" hcur,
      any_key_of_ne_none pfs "forecast" (by rw [hf]; exact fun hne => Option.noConfusion hne)]
    rfl
  have hns : normalizeAndStats (.vObj pfs) = .error () := by
    simp only [normalizeAndStats]
    rw [process_obj_fd pfs ffs (.vArr ds) hf hfd]
    cases hm : mapExcept processDay ds with
    | error e =>
      cases e
      have hpf : processForecastDays (.vArr ds) = .error () := by
        show (mapExcept processDay ds >>= fun x => Except.ok (Value.vArr x)) = .error ()
        rw [hm, error_bind]
      rw [hpf]
      rfl
    | ok ds' =>
      have hpf : processForecastDays (.vArr ds) = .ok (.vArr ds') := by
        show (mapExcept processDay ds >>= fun x => Except.ok (Value.vArr x)) = .ok (.vArr ds')
        rw [hm, ok_bind]
      rw [hpf]
      simp only [ok_bind]
      have hstats : statsLoop (.vObj (dictSet pfs "forecast"
          (.vObj (dictSet ffs "forecastday" (.vArr ds'))))) = .error () := by
        obtain ⟨dfs0, hmem, hnone⟩ := hday
        obtain ⟨b, hb, hpd⟩ := forall2_mem_left (mapExcept_forall processDay ds ds' hm) _ hmem
        rw [processDay_obj_none dfs0 hnone] at hpd
        cases hpd
        simp only [statsLoop, pyGetItem, dictGetOpt_dictSet_self, ok_bind, pyIter]
        refine foldlExcept_error_of_mem _ (.vObj dfs0) ?_ ds' hb 0
        intro acc
        simp only [pyGetItem, hnone, error_bind]
      rw [hstats]
      rfl
  simp only [fetch_weather_for_city]
  rw [if_neg (by omega)]
  simp only [hso, hns]

/-- Witness for C10: the fetch evaluated on `noAstroDoc`. -/
theorem fetch_day_without_astro_witness :
    fetch_weather_for_city "Hassan" (.ok 200 (some (.vObj noAstroFields))) =
      ⟨false, none, some .genericError⟩ :=
  fetch_day_without_astro "Hassan" 200 noAstroFields
    [("forecastday", .vArr [.vObj [("date", .vStr "2026-10-12")]])]
    [.vObj [("date", .vStr "2026-10-12")]]
    (by decide)
    (fun hne => Option.noConfusion hne)
    (fun hne => Option.noConfusion hne)
    rfl rfl
    ⟨[("date", .vStr "2026-10-12")], by simp, rfl⟩

end Weather
